import Mathlib

/-!
The counting comparator of `tools/count-compare-copies.cpp`.

A shallow embedding of `struct compare_t` and of the operations a sorter can
perform on instances of it.

* An `int&` member is the address of an `int` object; the `int` objects live in
  a `Memory`.  An `int` has 32 bits: the result of `+` on `int` is stored
  through `wrap_int`, which leaves a sum within `[-2^31, 2^31)` as it is and
  wraps one beyond that range around modulo `2^32`, as the compiled program
  does.
* Each constructor and the call operator is a function on explicit state: it
  takes the memory and the objects it receives by reference, and returns the
  memory, the objects it may have written, and either the constructed object /
  returned value or the exception it threw.
* `State`, `Op` and `step` describe a program holding any number of
  `compare_t` objects and performing constructor calls and comparisons on
  them, one after the other.
* `loop_body`, `main_loop` and `main` are the driver.  The sorters of
  `<cpp-sort/sorters.h>` and `std::shuffle` with its engine are not part of the
  sources and are parameters: a sorter is any `Program` of comparator
  operations, `shuffle` any function of the collection and the seed.
-/

namespace CountCompareCopies

/-- An `int&`: the address of an `int` object. -/
abbrev IntRef := Nat

/-- The `int` objects of the program, by address. -/
abbrev Memory := IntRef → Int

/-- The `int` holding the result of an addition on `int`: the sum itself when it
lies within `[-2147483648, 2147483647]`, otherwise the sum wrapped around
modulo `2^32` into that range (`2147483647 + 1` is `-2147483648`). -/
def wrap_int (x : Int) : Int :=
  (x + 2147483648) % 4294967296 - 2147483648

/-- The exceptions the comparator throws: `std::logic_error(what)`. -/
inductive Exception where
  | logic_error (what : String)
deriving DecidableEq, Repr

/-- The members of `struct compare_t`: two `int&` and the flag `has_moved`
(default member initializer `false`). -/
structure compare_t where
  copies : IntRef
  moves : IntRef
  has_moved : Bool := false
deriving DecidableEq, Repr

/-- What a constructor call leaves behind: the memory, the argument `other`
(passed by reference) and the constructed object, or the exception thrown out
of the constructor, in which case no object has been constructed. -/
structure Constructed where
  mem : Memory
  other : compare_t
  result : Except Exception compare_t

/-- The constructor `compare_t(int& copies, int& moves)`: binds both references,
`has_moved` takes its default `false`, the body is empty. -/
def compare_t.ctor (mem : Memory) (copies moves : IntRef) : Memory × compare_t :=
  (mem, ⟨copies, moves, false⟩)

/-- The copy constructor `compare_t(const compare_t& other)`: binds the references
of `other`, `has_moved` takes its default `false`, then `copies += 1`.
`other` is a const reference and is returned as it was received. -/
def compare_t.copy_ctor (mem : Memory) (other : compare_t) : Constructed :=
  let self : compare_t := ⟨other.copies, other.moves, false⟩
  ⟨Function.update mem self.copies (wrap_int (mem self.copies + 1)), other, .ok self⟩

/-- The move constructor `compare_t(compare_t&& other)`: binds the references of
`other`, `has_moved` takes its default `false`; `std::exchange(other.has_moved, true)`
stores `true` in the flag of `other` and yields the old flag; when the old flag
was set, `std::logic_error` is thrown, otherwise `moves += 1`. -/
def compare_t.move_ctor (mem : Memory) (other : compare_t) : Constructed :=
  let self : compare_t := ⟨other.copies, other.moves, false⟩
  let old := other.has_moved
  let other1 : compare_t := ⟨other.copies, other.moves, true⟩
  if old then
    ⟨mem, other1, .error (.logic_error "illegal read from a moved-from value")⟩
  else
    ⟨Function.update mem self.moves (wrap_int (mem self.moves + 1)), other1, .ok self⟩

/-- The call operator `operator()(lhs, rhs)` at `int` arguments: throws
`std::logic_error` when `has_moved` is set, otherwise returns `lhs < rhs`.
It writes neither to the object nor to the counters. -/
def compare_t.operator_call (self : compare_t) (lhs rhs : Int) : Except Exception Bool :=
  if self.has_moved then
    .error (.logic_error "illegal read from a moved-from value")
  else
    .ok (decide (lhs < rhs))

/-- The state of a program using the comparator: the `int` objects and the
`compare_t` objects constructed so far, numbered in order of construction. -/
structure State where
  mem : Memory
  objs : List compare_t

/-- One operation on the comparator objects; objects are named by their number. -/
inductive Op where
  | construct (copies moves : IntRef)
  | copy (src : Nat)
  | move (src : Nat)
  | call (obj : Nat) (lhs rhs : Int)
deriving DecidableEq, Repr

/-- What an operation yields to the program: the number of the object a
constructor built, the value a comparison returned, the exception thrown, or
`no_object` when the operation names an object that does not exist. -/
inductive Outcome where
  | constructed (id : Nat)
  | returned (value : Bool)
  | thrown (e : Exception)
  | no_object
deriving DecidableEq, Repr

/-- Perform one operation.  A constructor that returns adds its object to the
state; one that throws adds none.  The move constructor writes to its source. -/
def step (s : State) : Op → State × Outcome
  | .construct copies moves =>
    let r := compare_t.ctor s.mem copies moves
    (⟨r.1, s.objs ++ [r.2]⟩, .constructed s.objs.length)
  | .copy i =>
    match s.objs[i]? with
    | none => (s, .no_object)
    | some other =>
      let r := compare_t.copy_ctor s.mem other
      match r.result with
      | .ok self => (⟨r.mem, s.objs.set i r.other ++ [self]⟩, .constructed s.objs.length)
      | .error e => (⟨r.mem, s.objs.set i r.other⟩, .thrown e)
  | .move i =>
    match s.objs[i]? with
    | none => (s, .no_object)
    | some other =>
      let r := compare_t.move_ctor s.mem other
      match r.result with
      | .ok self => (⟨r.mem, s.objs.set i r.other ++ [self]⟩, .constructed s.objs.length)
      | .error e => (⟨r.mem, s.objs.set i r.other⟩, .thrown e)
  | .call i lhs rhs =>
    match s.objs[i]? with
    | none => (s, .no_object)
    | some self =>
      match compare_t.operator_call self lhs rhs with
      | .ok value => (s, .returned value)
      | .error e => (s, .thrown e)

/-- Perform a sequence of operations, whatever each one yields. -/
def run (s : State) : List Op → State
  | [] => s
  | op :: ops => run (step s op).1 ops

/-- The outcomes of a sequence of operations, in order. -/
def outcomes (s : State) : List Op → List Outcome
  | [] => []
  | op :: ops => (step s op).2 :: outcomes (step s op).1 ops

/-- The usage violation both checks throw. -/
def usage_violation : Exception :=
  .logic_error "illegal read from a moved-from value"

/-- Copy-constructor calls. -/
def Op.is_copy : Op → Bool
  | .copy _ => true
  | _ => false

/-- Move-constructor calls. -/
def Op.is_move : Op → Bool
  | .move _ => true
  | _ => false

/-- Calls of the two-reference constructor, which binds an object to counters
of the caller's choice. -/
def Op.is_construct : Op → Bool
  | .construct _ _ => true
  | _ => false

/-- The operation returned a new object. -/
def Outcome.is_constructed : Outcome → Bool
  | .constructed _ => true
  | _ => false

/-- How many operations of the given kind returned a new object in a sequence
of operations. -/
def succeeded (kind : Op → Bool) (s : State) : List Op → Nat
  | [] => 0
  | op :: ops =>
    (if kind op && (step s op).2.is_constructed then 1 else 0)
      + succeeded kind (step s op).1 ops

/-- A sorter of `<cpp-sort/sorters.h>` as `main` sees it: a program that performs
comparator operations one after the other, choosing each from what the earlier
ones yielded, and ends by returning (the collection is left reordered) or by
letting an exception out.  An exception thrown by a constructor or by the call
operator reaches the sorter as the outcome `thrown`; a sorter without a handler
continues with `raise` of that exception. -/
inductive Program where
  | ret (collection : List Int)
  | raise (e : Exception)
  | perform (op : Op) (next : Outcome → Program)

/-- The type `sort_f<std::vector, int, compare_t>`: a sorter takes the
collection by reference and the comparator by value; the comparator reaches it
as the number of the parameter object. -/
abbrev Sorter := List Int → Nat → Program

/-- Run a sorter program from a state: the final state and either the collection
it returned with or the exception that left it. -/
def Program.exec : Program → State → State × Except Exception (List Int)
  | .ret collection, s => (s, .ok collection)
  | .raise e, s => (s, .error e)
  | .perform op next, s => (next (step s op).2).exec (step s op).1

/-- The function `std::iota(first, last, value)`: overwrites the elements with
`value`, `value + 1`, ... in order. -/
def iota : List Int → Int → List Int
  | [], _ => []
  | _ :: rest, value => value :: iota rest (value + 1)

/-- The collection handed to a sorter: `std::vector<int> collection(1'000, 0)`,
filled by `std::iota` from `0`, then permuted by `std::shuffle` with a
`std::mt19937` engine constructed from the seed `1477332479`.  The standard
library is not part of the sources: `shuffle` stands for the composition of
engine construction and `std::shuffle`, a function of the collection and the
seed. -/
def collection_to_sort (shuffle : List Int → Nat → List Int) : List Int :=
  shuffle (iota (List.replicate 1000 0) 0) 1477332479

/-- Output of `text` through `std::left << std::setw(width)` with the default
fill character: the text, then spaces up to the width; a longer text is written
whole.  A `std::string` is a `String`, one `Char` per `char`. -/
def left_setw (width : Nat) (text : String) : String :=
  text ++ String.mk (List.replicate (width - text.length) ' ')

/-- The four values `main` writes for one sorter: `name`, `copies`, `moves` and
`copies + moves`. -/
structure Report where
  name : String
  copies : Int
  moves : Int
  total : Int
deriving DecidableEq, Repr

/-- The four values written for a sorter of that name once the counters hold
`copies` and `moves`; the last is the `int` sum `copies + moves` of line 123. -/
def report_of (name : String) (copies moves : Int) : Report :=
  ⟨name, copies, moves, wrap_int (copies + moves)⟩

/-- The text written to `std::cout` for one sorter (lines 120 to 123). -/
def report_row (r : Report) : String :=
  left_setw 25 (r.name ++ ":")
    ++ left_setw 10 (toString r.copies) ++ " copies,\t"
    ++ left_setw 10 (toString r.moves) ++ " moves,\t"
    ++ left_setw 10 (toString r.total) ++ "total\n"

/-- The address of the local `int copies` of the loop body. -/
def copies_addr : IntRef := 0

/-- The address of the local `int moves` of the loop body. -/
def moves_addr : IntRef := 1

/-- The state in which the sorter starts: both locals set to `0` in the memory
left by whatever ran before, `compare_t compare(copies, moves)` constructed as
object `0`, and the by-value parameter of `sort(collection, compare)` copy
constructed from it as object `1`. -/
def sorter_start (mem : Memory) : State :=
  let mem1 := Function.update mem copies_addr 0
  let mem2 := Function.update mem1 moves_addr 0
  let s1 := (step ⟨mem2, []⟩ (.construct copies_addr moves_addr)).1
  (step s1 (.copy 0)).1

/-- One iteration of the loop of `main` (lines 103 to 124), from the memory left
by the earlier iterations: builds the collection and the comparator, calls the
sorter, and when the sorter returns reads the two counters for the report.  An
exception leaving the sorter leaves the loop body. -/
def loop_body (shuffle : List Int → Nat → List Int) (mem : Memory)
    (sort_item : String × Sorter) : Memory × Except Exception Report :=
  let name := sort_item.1
  let sort := sort_item.2
  let collection := collection_to_sort shuffle
  let r := (sort collection 1).exec (sorter_start mem)
  match r.2 with
  | .ok _ => (r.1.mem, .ok (report_of name (r.1.mem copies_addr) (r.1.mem moves_addr)))
  | .error e => (r.1.mem, .error e)

/-- The loop of `main` over the registry: `out` is what has been written to
`std::cout` so far, one row per element.  There is no handler: an exception
leaving an iteration ends the loop and leaves `main`. -/
def main_loop (shuffle : List Int → Nat → List Int) (mem : Memory) :
    List (String × Sorter) → List String → List String × Except Exception Unit
  | [], out => (out, .ok ())
  | sort_item :: rest, out =>
    match loop_body shuffle mem sort_item with
    | (mem1, .ok r) => main_loop shuffle mem1 rest (out ++ [report_row r])
    | (_, .error e) => (out, .error e)

/-- The names of the array `sorts`, in order. -/
def sort_names : List String :=
  ["block_sort", "grail_sort", "heap_sort", "insertion_sort", "merge_insertion_sort",
   "merge_sort", "pdq_sort", "poplar_sort", "quick_sort", "selection_sort", "smooth_sort",
   "std_sort", "tim_sort", "verge_sort"]

/-- The array `sorts`: each name with the sorter of that name from
`<cpp-sort/sorters.h>`; the library is not part of the sources and is the
parameter `cppsort`. -/
def sorts (cppsort : String → Sorter) : List (String × Sorter) :=
  sort_names.map (fun name => (name, cppsort name))

/-- The function `main`: the loop over `sorts`, starting with nothing written. -/
def main (shuffle : List Int → Nat → List Int) (cppsort : String → Sorter) (mem : Memory) :
    List String × Except Exception Unit :=
  main_loop shuffle mem (sorts cppsort) []

/-- The per-algorithm procedure run on its own, from a memory holding zeros. -/
def run_alone (shuffle : List Int → Nat → List Int) (sort_item : String × Sorter) :
    Except Exception Report :=
  (loop_body shuffle (fun _ => 0) sort_item).2

/-- In the words of the claim on independent runs: the sorter run alone, on the
freshly built collection, with a fresh comparator over counters holding
`(0, 0)` and no other `int` or object around; the comparator is handed over by
value.  The result is the final state, whose memory holds the two counters,
and how the sorter ended. -/
def alone (shuffle : List Int → Nat → List Int) (sort : Sorter) :
    State × Except Exception (List Int) :=
  let counters : Memory := fun _ => 0
  let comparator : compare_t := ⟨copies_addr, moves_addr, false⟩
  let handed_over := (step ⟨counters, [comparator]⟩ (.copy 0)).1
  (sort (collection_to_sort shuffle) 1).exec handed_over

/-- How many copy and move constructions return while a sorter program runs
from a state. -/
def Program.constructions : Program → State → Nat
  | .ret _, _ => 0
  | .raise _, _ => 0
  | .perform op next, s =>
    (if (op.is_copy || op.is_move) && (step s op).2.is_constructed then 1 else 0)
      + (next (step s op).2).constructions (step s op).1

/-- The program that copy constructs from object `src` a given number of times,
whatever each copy yields, and then goes on with `rest`. -/
def copy_n : Nat → Nat → Program → Program
  | 0, _, rest => rest
  | n + 1, src, rest => .perform (.copy src) (fun _ => copy_n n src rest)

/-- A sorter that copies its comparator `n` times and returns. -/
def copying_sorter (n : Nat) : Sorter := fun collection cmp =>
  copy_n n cmp (.ret collection)

/-- A sorter that moves its comparator into a local object, copies that object
`n` times and returns; it has no handler. -/
def moving_copying_sorter (n : Nat) : Sorter := fun collection cmp =>
  .perform (.move cmp) (fun moved =>
    match moved with
    | .constructed local_cmp => copy_n n local_cmp (.ret collection)
    | .thrown e => .raise e
    | _ => .ret collection)

/-- In the words of the report format: `field` is `text` left-aligned in a
column of width `width`, that is `text` followed by nothing but spaces, as many
as it takes to reach the width, none when the text is at least that long. -/
def left_aligned (width : Nat) (text field : String) : Prop :=
  ∃ k, field = text ++ String.mk (List.replicate k ' ')
    ∧ field.length = max width text.length

/-- A small sorter used as a concrete input: moves its parameter into a local,
compares the first two elements through the local, and returns; it has no
handler. -/
def sample_sorter : Sorter := fun collection cmp =>
  .perform (.move cmp) (fun moved =>
    match moved with
    | .constructed local_cmp =>
      .perform (.call local_cmp (collection.getD 0 0) (collection.getD 1 0)) (fun compared =>
        match compared with
        | .thrown e => .raise e
        | _ => .ret collection)
    | .thrown e => .raise e
    | _ => .ret collection)

/-- A sorter that breaks the contract: it moves its parameter away and then
compares through the moved-from parameter; it has no handler. -/
def use_after_move_sorter : Sorter := fun collection cmp =>
  .perform (.move cmp) (fun _ =>
    .perform (.call cmp (collection.getD 0 0) (collection.getD 1 0)) (fun compared =>
      match compared with
      | .thrown e => .raise e
      | _ => .ret collection))

/-! The constructors and the call operator. -/

/-- Within the range of `int`, storing a sum changes nothing. -/
theorem wrap_int_of_range (x : Int) (hlo : -2147483648 ≤ x) (hhi : x ≤ 2147483647) :
    wrap_int x = x := by
  unfold wrap_int
  omega

/-- What is stored is always within the range of `int`. -/
theorem wrap_int_range (x : Int) : -2147483648 ≤ wrap_int x ∧ wrap_int x ≤ 2147483647 := by
  unfold wrap_int
  omega

/-- Wrapping on the way does not change where a sum ends up. -/
theorem wrap_int_add (a b : Int) : wrap_int (wrap_int a + b) = wrap_int (a + b) := by
  unfold wrap_int
  omega

/-- C1, at `moves = INT_MAX`: the move constructor from an unconsumed object
returns, but `moves += 1` leaves `-2147483648` in the counter, not
`2147483647 + 1`. -/
theorem move_ctor_at_int_max :
    (compare_t.mk 0 1 false).has_moved = false
      ∧ (fun a : IntRef => if a = 1 then (2147483647 : Int) else 0) 1 = 2147483647
      ∧ (compare_t.move_ctor (fun a => if a = 1 then 2147483647 else 0) ⟨0, 1, false⟩).result
          = .ok ⟨0, 1, false⟩
      ∧ (compare_t.move_ctor (fun a => if a = 1 then 2147483647 else 0) ⟨0, 1, false⟩).mem 1
          = -2147483648
      ∧ (compare_t.move_ctor (fun a => if a = 1 then 2147483647 else 0) ⟨0, 1, false⟩).mem 1
          ≠ 2147483647 + 1 :=
  ⟨rfl, rfl, rfl, by decide, by decide⟩

/-- C1, with the counter below `INT_MAX`: the move constructor from an
unconsumed `x` over two distinct `int` counters holding `(c, m)`, `m` less than
`2147483647`, returns a new object, leaves the counters at `(c, m + 1)`, sets
the flag of `x`, and the new object is unconsumed and bound to the same pair. -/
theorem move_ctor_unconsumed (mem : Memory) (x : compare_t) (c m : Int)
    (hx : x.has_moved = false) (hpair : x.copies ≠ x.moves)
    (hc : mem x.copies = c) (hm : mem x.moves = m)
    (hlo : -2147483648 ≤ m) (hhi : m < 2147483647) :
    ∃ y, (compare_t.move_ctor mem x).result = .ok y
      ∧ (compare_t.move_ctor mem x).mem x.copies = c
      ∧ (compare_t.move_ctor mem x).mem x.moves = m + 1
      ∧ (compare_t.move_ctor mem x).other.has_moved = true
      ∧ (compare_t.move_ctor mem x).other.copies = x.copies
      ∧ (compare_t.move_ctor mem x).other.moves = x.moves
      ∧ y.has_moved = false ∧ y.copies = x.copies ∧ y.moves = x.moves := by
  refine ⟨⟨x.copies, x.moves, false⟩, ?_⟩
  have hw : wrap_int (m + 1) = m + 1 := wrap_int_of_range _ (by omega) (by omega)
  simp [compare_t.move_ctor, hx, hpair, hc, hm, hw]

theorem move_ctor_unconsumed_witness :
    ((compare_t.mk 0 1 false).has_moved = false ∧ (0 : IntRef) ≠ 1
        ∧ (-2147483648 : Int) ≤ 5 ∧ (5 : Int) < 2147483647)
      ∧ ∃ y, (compare_t.move_ctor (fun _ => 5) ⟨0, 1, false⟩).result = .ok y
        ∧ (compare_t.move_ctor (fun _ => 5) ⟨0, 1, false⟩).mem 0 = 5
        ∧ (compare_t.move_ctor (fun _ => 5) ⟨0, 1, false⟩).mem 1 = 5 + 1
        ∧ (compare_t.move_ctor (fun _ => 5) ⟨0, 1, false⟩).other.has_moved = true
        ∧ (compare_t.move_ctor (fun _ => 5) ⟨0, 1, false⟩).other.copies = 0
        ∧ (compare_t.move_ctor (fun _ => 5) ⟨0, 1, false⟩).other.moves = 1
        ∧ y.has_moved = false ∧ y.copies = 0 ∧ y.moves = 1 :=
  ⟨⟨rfl, by decide, by decide, by decide⟩,
    move_ctor_unconsumed (fun _ => 5) ⟨0, 1, false⟩ 5 5 rfl (by decide) rfl rfl
      (by decide) (by decide)⟩

/-- C2, at `copies = INT_MAX`: the copy constructor from an unconsumed object
returns, but `copies += 1` leaves `-2147483648` in the counter, not
`2147483647 + 1`. -/
theorem copy_ctor_at_int_max :
    (compare_t.mk 0 1 false).has_moved = false
      ∧ (fun a : IntRef => if a = 0 then (2147483647 : Int) else 0) 0 = 2147483647
      ∧ (compare_t.copy_ctor (fun a => if a = 0 then 2147483647 else 0) ⟨0, 1, false⟩).result
          = .ok ⟨0, 1, false⟩
      ∧ (compare_t.copy_ctor (fun a => if a = 0 then 2147483647 else 0) ⟨0, 1, false⟩).mem 0
          = -2147483648
      ∧ (compare_t.copy_ctor (fun a => if a = 0 then 2147483647 else 0) ⟨0, 1, false⟩).mem 0
          ≠ 2147483647 + 1 :=
  ⟨rfl, rfl, rfl, by decide, by decide⟩

/-- C2, with the counter below `INT_MAX`: the copy constructor from an
unconsumed `x` over two distinct `int` counters holding `(c, m)`, `c` less than
`2147483647`, returns a new object, leaves the counters at `(c + 1, m)`, leaves
`x` as it was (unconsumed, so a comparison through `x` returns), and the new
object is unconsumed and bound to the same pair. -/
theorem copy_ctor_unconsumed (mem : Memory) (x : compare_t) (c m a b : Int)
    (hx : x.has_moved = false) (hpair : x.copies ≠ x.moves)
    (hc : mem x.copies = c) (hm : mem x.moves = m)
    (hlo : -2147483648 ≤ c) (hhi : c < 2147483647) :
    ∃ y, (compare_t.copy_ctor mem x).result = .ok y
      ∧ (compare_t.copy_ctor mem x).mem x.copies = c + 1
      ∧ (compare_t.copy_ctor mem x).mem x.moves = m
      ∧ (compare_t.copy_ctor mem x).other = x
      ∧ (compare_t.copy_ctor mem x).other.has_moved = false
      ∧ compare_t.operator_call (compare_t.copy_ctor mem x).other a b = .ok (decide (a < b))
      ∧ y.has_moved = false ∧ y.copies = x.copies ∧ y.moves = x.moves := by
  refine ⟨⟨x.copies, x.moves, false⟩, ?_⟩
  have hw : wrap_int (c + 1) = c + 1 := wrap_int_of_range _ (by omega) (by omega)
  simp [compare_t.copy_ctor, compare_t.operator_call, hx, hc, hm, Ne.symm hpair, hw]

theorem copy_ctor_unconsumed_witness :
    ((compare_t.mk 0 1 false).has_moved = false ∧ (0 : IntRef) ≠ 1
        ∧ (-2147483648 : Int) ≤ 5 ∧ (5 : Int) < 2147483647)
      ∧ ∃ y, (compare_t.copy_ctor (fun _ => 5) ⟨0, 1, false⟩).result = .ok y
        ∧ (compare_t.copy_ctor (fun _ => 5) ⟨0, 1, false⟩).mem 0 = 5 + 1
        ∧ (compare_t.copy_ctor (fun _ => 5) ⟨0, 1, false⟩).mem 1 = 5
        ∧ (compare_t.copy_ctor (fun _ => 5) ⟨0, 1, false⟩).other = ⟨0, 1, false⟩
        ∧ (compare_t.copy_ctor (fun _ => 5) ⟨0, 1, false⟩).other.has_moved = false
        ∧ compare_t.operator_call (compare_t.copy_ctor (fun _ => 5) ⟨0, 1, false⟩).other 3 7
            = .ok (decide ((3 : Int) < 7))
        ∧ y.has_moved = false ∧ y.copies = 0 ∧ y.moves = 1 :=
  ⟨⟨rfl, by decide, by decide, by decide⟩,
    copy_ctor_unconsumed (fun _ => 5) ⟨0, 1, false⟩ 5 5 3 7 rfl (by decide) rfl rfl
      (by decide) (by decide)⟩

/-- C3, the code at a consumed source: after `a` has been moved from, the copy
constructor from `a` returns a new, unconsumed object and counts one copy; a
comparison through that object returns a value. -/
theorem copy_ctor_consumed_returns :
    (compare_t.copy_ctor (fun _ => 0) ⟨0, 1, true⟩).result = .ok ⟨0, 1, false⟩
      ∧ (compare_t.copy_ctor (fun _ => 0) ⟨0, 1, true⟩).mem 0 = 1
      ∧ outcomes ⟨fun _ => 0, []⟩ [.construct 0 1, .move 0, .copy 0, .call 2 3 7]
          = [.constructed 0, .constructed 1, .constructed 2, .returned true] := by
  refine ⟨rfl, rfl, ?_⟩
  decide

/-- C4: the move constructor throws the usage violation exactly when the flag
of its source is set at the call; it sets the flag of its source in every case,
so a further move construction from that source throws, whatever the memory. -/
theorem move_ctor_throws_iff (mem mem1 : Memory) (x : compare_t) :
    ((compare_t.move_ctor mem x).result = .error usage_violation ↔ x.has_moved = true)
      ∧ ((∃ e, (compare_t.move_ctor mem x).result = .error e) ↔ x.has_moved = true)
      ∧ (compare_t.move_ctor mem1 (compare_t.move_ctor mem x).other).result
          = .error usage_violation := by
  cases hx : x.has_moved <;> simp [compare_t.move_ctor, usage_violation, hx]

/-- C5: the call operator throws the usage violation exactly when the flag of
the object is set; an object whose flag is set returns no value. -/
theorem operator_call_throws_iff (x : compare_t) (a b : Int) :
    (compare_t.operator_call x a b = .error usage_violation ↔ x.has_moved = true)
      ∧ ((∃ e, compare_t.operator_call x a b = .error e) ↔ x.has_moved = true)
      ∧ (x.has_moved = true → ∀ v : Bool, compare_t.operator_call x a b ≠ .ok v) := by
  cases hx : x.has_moved <;> simp [compare_t.operator_call, usage_violation, hx]

/-- C6: through an unconsumed object the call operator returns `true` exactly
when `a < b`; this holds in the state reached from any state by any sequence of
operations, whatever the counters hold. -/
theorem operator_call_unconsumed (s : State) (ops : List Op) (i : Nat) (x : compare_t)
    (a b : Int) (hi : (run s ops).objs[i]? = some x) (hx : x.has_moved = false) :
    (compare_t.operator_call x a b = .ok true ↔ a < b)
      ∧ (compare_t.operator_call x a b = .ok false ↔ ¬ a < b)
      ∧ ((step (run s ops) (.call i a b)).2 = .returned true ↔ a < b)
      ∧ ((step (run s ops) (.call i a b)).2 = .returned false ↔ ¬ a < b) := by
  simp [step, hi, compare_t.operator_call, hx]

theorem operator_call_unconsumed_witness :
    ((run ⟨fun _ => 0, []⟩ [.construct 0 1, .copy 0, .move 0]).objs[1]? = some ⟨0, 1, false⟩)
      ∧ ((compare_t.operator_call ⟨0, 1, false⟩ 3 7 = .ok true ↔ (3 : Int) < 7)
        ∧ (compare_t.operator_call ⟨0, 1, false⟩ 3 7 = .ok false ↔ ¬ (3 : Int) < 7)
        ∧ ((step (run ⟨fun _ => 0, []⟩ [.construct 0 1, .copy 0, .move 0]) (.call 1 3 7)).2
            = .returned true ↔ (3 : Int) < 7)
        ∧ ((step (run ⟨fun _ => 0, []⟩ [.construct 0 1, .copy 0, .move 0]) (.call 1 3 7)).2
            = .returned false ↔ ¬ (3 : Int) < 7)) :=
  ⟨by decide, operator_call_unconsumed ⟨fun _ => 0, []⟩ [.construct 0 1, .copy 0, .move 0] 1
    ⟨0, 1, false⟩ 3 7 (by decide) rfl⟩

/-- C10: the two-reference constructor returns an object whose flag is clear
and whose references are the two it was given, and writes to no `int` object:
counters holding `(c, m)` still hold `(c, m)`. -/
theorem ctor_fresh (s : State) (copies moves : IntRef) :
    compare_t.ctor s.mem copies moves = (s.mem, ⟨copies, moves, false⟩)
      ∧ (step s (.construct copies moves)).2 = .constructed s.objs.length
      ∧ (step s (.construct copies moves)).1.objs[s.objs.length]?
          = some ⟨copies, moves, false⟩
      ∧ (step s (.construct copies moves)).1.mem = s.mem
      ∧ (∀ k, k < s.objs.length →
          (step s (.construct copies moves)).1.objs[k]? = s.objs[k]?) := by
  refine ⟨rfl, rfl, ?_, rfl, ?_⟩
  · simp [step, compare_t.ctor]
  · intro k hk
    simp [step, List.getElem?_append_left hk]

/-! One step, case by case. -/

theorem set_same {α : Type} (l : List α) (i : Nat) (x : α) (h : l[i]? = some x) :
    l.set i x = l := by
  induction l generalizing i with
  | nil => rfl
  | cons a t ih =>
    cases i with
    | zero => simp at h; simp [h]
    | succ n => simp at h; simp [ih n h]

theorem step_copy_some (s : State) (i : Nat) (x : compare_t) (h : s.objs[i]? = some x) :
    step s (.copy i)
      = (⟨Function.update s.mem x.copies (wrap_int (s.mem x.copies + 1)),
          s.objs ++ [⟨x.copies, x.moves, false⟩]⟩, .constructed s.objs.length) := by
  simp [step, h, compare_t.copy_ctor, set_same s.objs i x h]

theorem step_move_unconsumed (s : State) (i : Nat) (x : compare_t)
    (h : s.objs[i]? = some x) (hx : x.has_moved = false) :
    step s (.move i)
      = (⟨Function.update s.mem x.moves (wrap_int (s.mem x.moves + 1)),
          s.objs.set i ⟨x.copies, x.moves, true⟩ ++ [⟨x.copies, x.moves, false⟩]⟩,
         .constructed s.objs.length) := by
  simp [step, h, compare_t.move_ctor, hx]

theorem step_move_consumed (s : State) (i : Nat) (x : compare_t)
    (h : s.objs[i]? = some x) (hx : x.has_moved = true) :
    step s (.move i) = (s, .thrown usage_violation) := by
  have hxe : (⟨x.copies, x.moves, true⟩ : compare_t) = x := by
    cases x; simp_all
  simp [step, h, compare_t.move_ctor, hx, hxe, set_same s.objs i x h, usage_violation]

theorem step_call_some (s : State) (i : Nat) (x : compare_t) (a b : Int)
    (h : s.objs[i]? = some x) :
    step s (.call i a b)
      = (s, if x.has_moved then .thrown usage_violation else .returned (decide (a < b))) := by
  cases hx : x.has_moved <;> simp [step, h, compare_t.operator_call, hx, usage_violation]

theorem step_no_object (s : State) (i : Nat) (a b : Int) (h : s.objs[i]? = none) :
    step s (.copy i) = (s, .no_object) ∧ step s (.move i) = (s, .no_object)
      ∧ step s (.call i a b) = (s, .no_object) := by
  simp [step, h]

/-- An object of the state is still there after a step, bound to the same
references; a flag that is set stays set. -/
theorem step_keeps (s : State) (op : Op) (k : Nat) (x : compare_t)
    (h : s.objs[k]? = some x) :
    ∃ x1, (step s op).1.objs[k]? = some x1 ∧ x1.copies = x.copies ∧ x1.moves = x.moves
      ∧ (x.has_moved = true → x1.has_moved = true) := by
  have hk : k < s.objs.length := (List.getElem?_eq_some_iff.mp h).1
  cases op with
  | construct c m =>
    exact ⟨x, by simp [step, List.getElem?_append_left hk, h], rfl, rfl, id⟩
  | copy i =>
    cases hi : s.objs[i]? with
    | none => exact ⟨x, by simp [(step_no_object s i 0 0 hi).1, h], rfl, rfl, id⟩
    | some o =>
      exact ⟨x, by simp [step_copy_some s i o hi, List.getElem?_append_left hk, h],
        rfl, rfl, id⟩
  | move i =>
    cases hi : s.objs[i]? with
    | none => exact ⟨x, by simp [(step_no_object s i 0 0 hi).2.1, h], rfl, rfl, id⟩
    | some o =>
      cases ho : o.has_moved with
      | true => exact ⟨x, by simp [step_move_consumed s i o hi ho, h], rfl, rfl, id⟩
      | false =>
        have hk1 : k < (s.objs.set i ⟨o.copies, o.moves, true⟩).length := by simpa using hk
        by_cases hik : i = k
        · subst hik
          have hox : o = x := by simpa [hi] using h
          subst hox
          refine ⟨⟨o.copies, o.moves, true⟩, ?_, rfl, rfl, fun _ => rfl⟩
          simp [step_move_unconsumed s i o hi ho, List.getElem?_append_left hk1,
            List.getElem?_set_self hk]
        · refine ⟨x, ?_, rfl, rfl, id⟩
          simp [step_move_unconsumed s i o hi ho, List.getElem?_append_left hk1,
            List.getElem?_set_ne hik, h]
  | call i a b =>
    cases hi : s.objs[i]? with
    | none => exact ⟨x, by simp [(step_no_object s i a b hi).2.2, h], rfl, rfl, id⟩
    | some o => exact ⟨x, by simp [step_call_some s i o a b hi, h], rfl, rfl, id⟩

/-- The same over a sequence of operations. -/
theorem run_keeps (ops : List Op) (s : State) (k : Nat) (x : compare_t)
    (h : s.objs[k]? = some x) :
    ∃ x1, (run s ops).objs[k]? = some x1 ∧ x1.copies = x.copies ∧ x1.moves = x.moves
      ∧ (x.has_moved = true → x1.has_moved = true) := by
  induction ops generalizing s x with
  | nil => exact ⟨x, h, rfl, rfl, id⟩
  | cons op ops ih =>
    obtain ⟨x1, h1, hc1, hm1, hf1⟩ := step_keeps s op k x h
    obtain ⟨x2, h2, hc2, hm2, hf2⟩ := ih (step s op).1 x1 h1
    exact ⟨x2, h2, hc2.trans hc1, hm2.trans hm1, fun hx => hf2 (hf1 hx)⟩

/-- A move construction that returned a new object had a source, and left the
flag of that source set. -/
theorem step_move_constructed (s : State) (i j : Nat)
    (h : (step s (.move i)).2 = .constructed j) :
    ∃ x, s.objs[i]? = some x ∧ x.has_moved = false
      ∧ (step s (.move i)).1.objs[i]? = some ⟨x.copies, x.moves, true⟩ := by
  cases hi : s.objs[i]? with
  | none => simp [(step_no_object s i 0 0 hi).2.1] at h
  | some o =>
    cases ho : o.has_moved with
    | true => simp [step_move_consumed s i o hi ho] at h
    | false =>
      have hk : i < s.objs.length := (List.getElem?_eq_some_iff.mp hi).1
      have hk1 : i < (s.objs.set i ⟨o.copies, o.moves, true⟩).length := by simpa using hk
      refine ⟨o, rfl, ho, ?_⟩
      simp [step_move_unconsumed s i o hi ho, List.getElem?_append_left hk1,
        List.getElem?_set_self hk]

/-- Through a consumed object, every later comparison and every later move
construction in a sequence of operations throws. -/
theorem outcomes_consumed (ops : List Op) (s : State) (i l : Nat) (x : compare_t) (op : Op)
    (h : s.objs[i]? = some x) (hx : x.has_moved = true) (hl : ops[l]? = some op)
    (hop : op = .move i ∨ ∃ a b, op = .call i a b) :
    (outcomes s ops)[l]? = some (.thrown usage_violation) := by
  induction ops generalizing s l x with
  | nil => simp at hl
  | cons o ops ih =>
    cases l with
    | zero =>
      have ho : o = op := by simpa using hl
      subst ho
      rcases hop with rfl | ⟨a, b, rfl⟩
      · simp [outcomes, step_move_consumed s i x h hx]
      · simp [outcomes, step_call_some s i x a b h, hx]
    | succ l =>
      obtain ⟨x1, h1, -, -, hf1⟩ := step_keeps s o i x h
      have hl1 : ops[l]? = some op := by simpa using hl
      simpa [outcomes] using ih (step s o).1 l x1 h1 (hf1 hx) hl1

/-- While every object is bound to the pair `(c, m)` of distinct counters, an
operation other than the two-reference constructor keeps it so, increments `c`
exactly when it is a copy construction that returned, and `m` exactly when it
is a move construction that returned. -/
theorem step_counts (c m : IntRef) (hcm : c ≠ m) (s : State) (op : Op)
    (hb : ∀ x ∈ s.objs, x.copies = c ∧ x.moves = m) (hop : op.is_construct = false) :
    (∀ x ∈ (step s op).1.objs, x.copies = c ∧ x.moves = m)
      ∧ (step s op).1.mem c
          = (if op.is_copy && (step s op).2.is_constructed then wrap_int (s.mem c + 1)
              else s.mem c)
      ∧ (step s op).1.mem m
          = (if op.is_move && (step s op).2.is_constructed then wrap_int (s.mem m + 1)
              else s.mem m) := by
  cases op with
  | construct c0 m0 => simp [Op.is_construct] at hop
  | copy i =>
    cases hi : s.objs[i]? with
    | none => simpa [(step_no_object s i 0 0 hi).1, Op.is_copy, Op.is_move,
        Outcome.is_constructed] using hb
    | some o =>
      obtain ⟨hoc, hom⟩ := hb o (List.getElem?_mem hi)
      rw [step_copy_some s i o hi]
      refine ⟨?_, ?_, ?_⟩
      · intro x hx
        rcases List.mem_append.mp hx with hx | hx
        · exact hb x hx
        · have hx1 : x = ⟨o.copies, o.moves, false⟩ := by simpa using hx
          subst hx1
          exact ⟨hoc, hom⟩
      · subst hoc
        simp [Op.is_copy, Outcome.is_constructed]
      · subst hoc
        simp [Op.is_move, Ne.symm hcm]
  | move i =>
    cases hi : s.objs[i]? with
    | none => simpa [(step_no_object s i 0 0 hi).2.1, Op.is_copy, Op.is_move,
        Outcome.is_constructed] using hb
    | some o =>
      obtain ⟨hoc, hom⟩ := hb o (List.getElem?_mem hi)
      cases ho : o.has_moved with
      | true => simpa [step_move_consumed s i o hi ho, Op.is_copy, Op.is_move,
          Outcome.is_constructed] using hb
      | false =>
        rw [step_move_unconsumed s i o hi ho]
        refine ⟨?_, ?_, ?_⟩
        · intro x hx
          rcases List.mem_append.mp hx with hx | hx
          · rcases List.mem_or_eq_of_mem_set hx with hx | hx
            · exact hb x hx
            · subst hx
              exact ⟨hoc, hom⟩
          · have hx1 : x = ⟨o.copies, o.moves, false⟩ := by simpa using hx
            subst hx1
            exact ⟨hoc, hom⟩
        · subst hom
          simp [Op.is_copy, hcm]
        · subst hom
          simp [Op.is_move, Outcome.is_constructed]
  | call i a b =>
    cases hi : s.objs[i]? with
    | none => simpa [(step_no_object s i a b hi).2.2, Op.is_copy, Op.is_move,
        Outcome.is_constructed] using hb
    | some o =>
      simpa [step_call_some s i o a b hi, Op.is_copy, Op.is_move] using hb

/-- The same over a sequence of operations: each counter, an `int`, ends at its
start plus the number of copy constructions, respectively move constructions,
that returned, wrapped into the range of `int`. -/
theorem run_counts (c m : IntRef) (hcm : c ≠ m) (ops : List Op) (s : State)
    (hb : ∀ x ∈ s.objs, x.copies = c ∧ x.moves = m)
    (hops : ∀ op ∈ ops, op.is_construct = false)
    (hc : -2147483648 ≤ s.mem c ∧ s.mem c ≤ 2147483647)
    (hm : -2147483648 ≤ s.mem m ∧ s.mem m ≤ 2147483647) :
    (∀ x ∈ (run s ops).objs, x.copies = c ∧ x.moves = m)
      ∧ (run s ops).mem c = wrap_int (s.mem c + (succeeded Op.is_copy s ops : Int))
      ∧ (run s ops).mem m = wrap_int (s.mem m + (succeeded Op.is_move s ops : Int)) := by
  induction ops generalizing s with
  | nil =>
    refine ⟨hb, ?_, ?_⟩
    · simp [run, succeeded, wrap_int_of_range _ hc.1 hc.2]
    · simp [run, succeeded, wrap_int_of_range _ hm.1 hm.2]
  | cons op ops ih =>
    obtain ⟨hb1, hc1, hm1⟩ := step_counts c m hcm s op hb (hops op (List.mem_cons_self _ _))
    have hcr : -2147483648 ≤ (step s op).1.mem c ∧ (step s op).1.mem c ≤ 2147483647 := by
      rw [hc1]
      split
      · exact wrap_int_range _
      · exact hc
    have hmr : -2147483648 ≤ (step s op).1.mem m ∧ (step s op).1.mem m ≤ 2147483647 := by
      rw [hm1]
      split
      · exact wrap_int_range _
      · exact hm
    obtain ⟨hb2, hc2, hm2⟩ :=
      ih (step s op).1 hb1 (fun o ho => hops o (List.mem_cons_of_mem _ ho)) hcr hmr
    refine ⟨hb2, ?_, ?_⟩
    · rw [run, hc2, hc1, succeeded]
      split
      · rw [wrap_int_add]
        push_cast
        congr 1
        ring
      · simp
    · rw [run, hm2, hm1, succeeded]
      split
      · rw [wrap_int_add]
        push_cast
        congr 1
        ring
      · simp

/-- Copying one object `n` times in a row: all `n` copy constructions return,
and none of them is a move construction. -/
theorem succeeded_copies (n : Nat) (s : State) (i : Nat) (x : compare_t)
    (h : s.objs[i]? = some x) :
    succeeded Op.is_copy s (List.replicate n (.copy i)) = n
      ∧ succeeded Op.is_move s (List.replicate n (.copy i)) = 0 := by
  induction n generalizing s x with
  | zero => exact ⟨rfl, rfl⟩
  | succ n ih =>
    obtain ⟨x1, h1, -, -, -⟩ := step_keeps s (.copy i) i x h
    obtain ⟨ihc, ihm⟩ := ih (step s (.copy i)).1 x1 h1
    have hout : (step s (.copy i)).2 = .constructed s.objs.length := by
      rw [step_copy_some s i x h]
    rw [List.replicate_succ, succeeded, succeeded, ihc, ihm, hout]
    simp [Op.is_copy, Op.is_move, Outcome.is_constructed, Nat.add_comm]

/-! Sequences of operations. -/

/-- C7: in every sequence of operations from every state, once a move
construction from object `i` has returned, every later comparison through `i`
and every later move construction from `i` throws the usage violation, whatever
happens in between. -/
theorem consumed_is_permanent (s : State) (ops : List Op) (i j k l : Nat) (op : Op)
    (hk : ops[k]? = some (.move i))
    (hmoved : (outcomes s ops)[k]? = some (.constructed j))
    (hkl : k < l) (hl : ops[l]? = some op)
    (hop : op = .move i ∨ ∃ a b, op = .call i a b) :
    (outcomes s ops)[l]? = some (.thrown usage_violation) := by
  induction ops generalizing s k l with
  | nil => simp at hk
  | cons o ops ih =>
    cases l with
    | zero => omega
    | succ l =>
      have hl1 : ops[l]? = some op := by simpa using hl
      cases k with
      | zero =>
        have ho : o = .move i := by simpa using hk
        subst ho
        have hres : (step s (.move i)).2 = .constructed j := by
          simpa [outcomes] using hmoved
        obtain ⟨x, -, -, hafter⟩ := step_move_constructed s i j hres
        simpa [outcomes] using
          outcomes_consumed ops (step s (.move i)).1 i l _ op hafter rfl hl1 hop
      | succ k =>
        have hk1 : ops[k]? = some (.move i) := by simpa using hk
        have hm1 : (outcomes (step s o).1 ops)[k]? = some (.constructed j) := by
          simpa [outcomes] using hmoved
        simpa [outcomes] using ih (step s o).1 k l hk1 hm1 (by omega) hl1

theorem consumed_is_permanent_witness :
    ([Op.construct 0 1, .move 0, .copy 0, .call 0 3 7, .move 0][1]? = some (.move 0)
      ∧ (outcomes ⟨fun _ => 0, []⟩ [.construct 0 1, .move 0, .copy 0, .call 0 3 7, .move 0])[1]?
          = some (.constructed 1)
      ∧ [Op.construct 0 1, .move 0, .copy 0, .call 0 3 7, .move 0][4]? = some (.move 0))
      ∧ (outcomes ⟨fun _ => 0, []⟩ [.construct 0 1, .move 0, .copy 0, .call 0 3 7, .move 0])[4]?
          = some (.thrown usage_violation) :=
  ⟨by decide, consumed_is_permanent ⟨fun _ => 0, []⟩
    [.construct 0 1, .move 0, .copy 0, .call 0 3 7, .move 0] 0 1 1 4 (.move 0)
    (by decide) (by decide) (by decide) (by decide) (Or.inl rfl)⟩

/-- Copying the original comparator `n` times over counters holding `(0, 0)`:
all `n` copies return and `copies` ends at `n` wrapped into the range of `int`. -/
theorem run_copies (n : Nat) :
    succeeded Op.is_copy ⟨fun _ => 0, [⟨0, 1, false⟩]⟩ (List.replicate n (.copy 0)) = n
      ∧ (run ⟨fun _ => 0, [⟨0, 1, false⟩]⟩ (List.replicate n (.copy 0))).mem 0
          = wrap_int (n : Int) := by
  have hb : ∀ x ∈ (State.mk (fun _ => 0) [⟨0, 1, false⟩]).objs, x.copies = 0 ∧ x.moves = 1 := by
    intro x hx
    have hx1 : x = ⟨0, 1, false⟩ := by simpa using hx
    subst hx1
    exact ⟨rfl, rfl⟩
  have hops : ∀ op ∈ List.replicate n (Op.copy 0), op.is_construct = false := by
    intro op hop
    rw [List.eq_of_mem_replicate hop]
    rfl
  have hcount := (succeeded_copies n ⟨fun _ => 0, [⟨0, 1, false⟩]⟩ 0 ⟨0, 1, false⟩ rfl).1
  obtain ⟨-, h2, -⟩ := run_counts 0 1 (by decide) (List.replicate n (.copy 0))
    ⟨fun _ => 0, [⟨0, 1, false⟩]⟩ hb hops ⟨by decide, by decide⟩ ⟨by decide, by decide⟩
  refine ⟨hcount, ?_⟩
  rw [h2, hcount]
  simp

/-- C8, at `2^31` copies: from counters holding `(0, 0)`, copying the original
comparator `2147483648` times, every copy returns, and `copies` ends at
`-2147483648`, not at the number of copies that returned. -/
theorem counters_wrap_after_many_copies :
    succeeded Op.is_copy ⟨fun _ => 0, [⟨0, 1, false⟩]⟩
        (List.replicate 2147483648 (.copy 0)) = 2147483648
      ∧ (run ⟨fun _ => 0, [⟨0, 1, false⟩]⟩ (List.replicate 2147483648 (.copy 0))).mem 0
          = -2147483648
      ∧ (run ⟨fun _ => 0, [⟨0, 1, false⟩]⟩ (List.replicate 2147483648 (.copy 0))).mem 0
          ≠ ((succeeded Op.is_copy ⟨fun _ => 0, [⟨0, 1, false⟩]⟩
              (List.replicate 2147483648 (.copy 0)) : Nat) : Int) := by
  obtain ⟨hcount, hmem⟩ := run_copies 2147483648
  have hw : wrap_int ((2147483648 : Nat) : Int) = -2147483648 := by decide
  refine ⟨hcount, hmem.trans hw, ?_⟩
  rw [hmem, hw, hcount]
  decide

/-- C8, while fewer than `2^31` copies and fewer than `2^31` moves return:
starting from the original comparator over two distinct counters holding
`(0, 0)`, after a sequence of copy constructions, move constructions and
comparisons on the original and on the objects derived from it, `copies` holds
the number of copy constructions that returned, `moves` the number of move
constructions that returned, and every object is bound to that same pair. -/
theorem counters_count_successes (mem : Memory) (c m : IntRef) (ops : List Op)
    (hcm : c ≠ m) (hc : mem c = 0) (hm : mem m = 0)
    (hops : ∀ op ∈ ops, op.is_construct = false)
    (hcopies : succeeded Op.is_copy ⟨mem, [⟨c, m, false⟩]⟩ ops ≤ 2147483647)
    (hmoves : succeeded Op.is_move ⟨mem, [⟨c, m, false⟩]⟩ ops ≤ 2147483647) :
    (run ⟨mem, [⟨c, m, false⟩]⟩ ops).mem c
        = (succeeded Op.is_copy ⟨mem, [⟨c, m, false⟩]⟩ ops : Int)
      ∧ (run ⟨mem, [⟨c, m, false⟩]⟩ ops).mem m
        = (succeeded Op.is_move ⟨mem, [⟨c, m, false⟩]⟩ ops : Int)
      ∧ (∀ x ∈ (run ⟨mem, [⟨c, m, false⟩]⟩ ops).objs, x.copies = c ∧ x.moves = m) := by
  have hb : ∀ x ∈ (State.mk mem [⟨c, m, false⟩]).objs, x.copies = c ∧ x.moves = m := by
    intro x hx
    have hx1 : x = ⟨c, m, false⟩ := by simpa using hx
    subst hx1
    exact ⟨rfl, rfl⟩
  have hcr : -2147483648 ≤ (State.mk mem [⟨c, m, false⟩]).mem c
      ∧ (State.mk mem [⟨c, m, false⟩]).mem c ≤ 2147483647 := by
    show -2147483648 ≤ mem c ∧ mem c ≤ 2147483647
    rw [hc]
    decide
  have hmr : -2147483648 ≤ (State.mk mem [⟨c, m, false⟩]).mem m
      ∧ (State.mk mem [⟨c, m, false⟩]).mem m ≤ 2147483647 := by
    show -2147483648 ≤ mem m ∧ mem m ≤ 2147483647
    rw [hm]
    decide
  obtain ⟨h1, h2, h3⟩ := run_counts c m hcm ops ⟨mem, [⟨c, m, false⟩]⟩ hb hops hcr hmr
  refine ⟨?_, ?_, h1⟩
  · rw [h2]
    show wrap_int (mem c + _) = _
    rw [hc, zero_add]
    exact wrap_int_of_range _ (by omega) (by omega)
  · rw [h3]
    show wrap_int (mem m + _) = _
    rw [hm, zero_add]
    exact wrap_int_of_range _ (by omega) (by omega)

theorem counters_count_successes_witness :
    ((0 : IntRef) ≠ 1
      ∧ (∀ op ∈ [Op.copy 0, .move 0, .move 0, .call 1 3 7, .copy 1, .call 0 1 2, .move 5],
          op.is_construct = false)
      ∧ succeeded Op.is_copy ⟨fun _ => 0, [⟨0, 1, false⟩]⟩
          [.copy 0, .move 0, .move 0, .call 1 3 7, .copy 1, .call 0 1 2, .move 5] = 2
      ∧ succeeded Op.is_move ⟨fun _ => 0, [⟨0, 1, false⟩]⟩
          [.copy 0, .move 0, .move 0, .call 1 3 7, .copy 1, .call 0 1 2, .move 5] = 1)
      ∧ ((run ⟨fun _ => 0, [⟨0, 1, false⟩]⟩
            [.copy 0, .move 0, .move 0, .call 1 3 7, .copy 1, .call 0 1 2, .move 5]).mem 0
          = (succeeded Op.is_copy ⟨fun _ => 0, [⟨0, 1, false⟩]⟩
              [.copy 0, .move 0, .move 0, .call 1 3 7, .copy 1, .call 0 1 2, .move 5] : Int)
        ∧ (run ⟨fun _ => 0, [⟨0, 1, false⟩]⟩
            [.copy 0, .move 0, .move 0, .call 1 3 7, .copy 1, .call 0 1 2, .move 5]).mem 1
          = (succeeded Op.is_move ⟨fun _ => 0, [⟨0, 1, false⟩]⟩
              [.copy 0, .move 0, .move 0, .call 1 3 7, .copy 1, .call 0 1 2, .move 5] : Int)
        ∧ (∀ x ∈ (run ⟨fun _ => 0, [⟨0, 1, false⟩]⟩
            [.copy 0, .move 0, .move 0, .call 1 3 7, .copy 1, .call 0 1 2, .move 5]).objs,
            x.copies = 0 ∧ x.moves = 1)) :=
  ⟨⟨by decide, by decide, by decide, by decide⟩,
    counters_count_successes (fun _ => 0) 0 1
      [.copy 0, .move 0, .move 0, .call 1 3 7, .copy 1, .call 0 1 2, .move 5]
      (by decide) rfl rfl (by decide) (by decide) (by decide)⟩

/-- C9: a move construction from an unconsumed object `i` returns, sets the flag
of `i` and leaves every other object of the state as it was; a copy `y` taken
from `i` before that move is unconsumed after it, and a comparison through `y`
returns its value. -/
theorem flag_is_private (s : State) (i : Nat) (x : compare_t) (a b : Int)
    (hi : s.objs[i]? = some x) (hx : x.has_moved = false) :
    (step s (.move i)).2 = .constructed s.objs.length
      ∧ (step s (.move i)).1.objs[i]? = some ⟨x.copies, x.moves, true⟩
      ∧ (∀ k, k ≠ i → k < s.objs.length → (step s (.move i)).1.objs[k]? = s.objs[k]?)
      ∧ (step s (.copy i)).2 = .constructed s.objs.length
      ∧ (step (step s (.copy i)).1 (.move i)).2 = .constructed (s.objs.length + 1)
      ∧ (step (step s (.copy i)).1 (.move i)).1.objs[i]? = some ⟨x.copies, x.moves, true⟩
      ∧ (step (step s (.copy i)).1 (.move i)).1.objs[s.objs.length]?
          = some ⟨x.copies, x.moves, false⟩
      ∧ (step (step (step s (.copy i)).1 (.move i)).1 (.call s.objs.length a b)).2
          = .returned (decide (a < b)) := by
  have hk : i < s.objs.length := (List.getElem?_eq_some_iff.mp hi).1
  have hk1 : i < (s.objs.set i ⟨x.copies, x.moves, true⟩).length := by simpa using hk
  have hne : i ≠ s.objs.length := Nat.ne_of_lt hk
  -- the state after the copy, and the source in it
  have hi1 : (step s (.copy i)).1.objs[i]? = some x := by
    simp [step_copy_some s i x hi, List.getElem?_append_left hk, hi]
  have hlen1 : (step s (.copy i)).1.objs.length = s.objs.length + 1 := by
    simp [step_copy_some s i x hi]
  have hy1 : (step s (.copy i)).1.objs[s.objs.length]? = some ⟨x.copies, x.moves, false⟩ := by
    simp [step_copy_some s i x hi]
  have hlt1 : s.objs.length
      < ((step s (.copy i)).1.objs.set i ⟨x.copies, x.moves, true⟩).length := by
    simp [hlen1]
  have hi1lt : i < (step s (.copy i)).1.objs.length := by omega
  have hi1lt1 : i < ((step s (.copy i)).1.objs.set i ⟨x.copies, x.moves, true⟩).length := by
    simpa using hi1lt
  -- the clone after the move
  have hy2 : (step (step s (.copy i)).1 (.move i)).1.objs[s.objs.length]?
      = some ⟨x.copies, x.moves, false⟩ := by
    rw [step_move_unconsumed _ i x hi1 hx]
    simp only [List.getElem?_append_left hlt1, List.getElem?_set_ne hne, hy1]
  refine ⟨?_, ?_, ?_, ?_, ?_, ?_, hy2, ?_⟩
  · rw [step_move_unconsumed s i x hi hx]
  · rw [step_move_unconsumed s i x hi hx]
    simp only [List.getElem?_append_left hk1, List.getElem?_set_self hk]
  · intro k hki hkl
    have hkl1 : k < (s.objs.set i ⟨x.copies, x.moves, true⟩).length := by simpa using hkl
    rw [step_move_unconsumed s i x hi hx]
    simp only [List.getElem?_append_left hkl1, List.getElem?_set_ne (Ne.symm hki)]
  · rw [step_copy_some s i x hi]
  · rw [step_move_unconsumed _ i x hi1 hx, hlen1]
  · rw [step_move_unconsumed _ i x hi1 hx]
    simp only [List.getElem?_append_left hi1lt1, List.getElem?_set_self hi1lt]
  · rw [step_call_some _ _ _ a b hy2]
    simp

theorem flag_is_private_witness :
    ((State.mk (fun _ => 0) [⟨0, 1, true⟩, ⟨0, 1, false⟩, ⟨0, 1, false⟩]).objs[1]?
        = some ⟨0, 1, false⟩)
      ∧ ((step ⟨fun _ => 0, [⟨0, 1, true⟩, ⟨0, 1, false⟩, ⟨0, 1, false⟩]⟩ (.move 1)).2
          = .constructed 3
        ∧ (step ⟨fun _ => 0, [⟨0, 1, true⟩, ⟨0, 1, false⟩, ⟨0, 1, false⟩]⟩ (.move 1)).1.objs[1]?
          = some ⟨0, 1, true⟩
        ∧ (∀ k, k ≠ 1 → k < 3 →
            (step ⟨fun _ => 0, [⟨0, 1, true⟩, ⟨0, 1, false⟩, ⟨0, 1, false⟩]⟩
                (.move 1)).1.objs[k]?
              = [compare_t.mk 0 1 true, ⟨0, 1, false⟩, ⟨0, 1, false⟩][k]?)
        ∧ (step ⟨fun _ => 0, [⟨0, 1, true⟩, ⟨0, 1, false⟩, ⟨0, 1, false⟩]⟩ (.copy 1)).2
          = .constructed 3
        ∧ (step (step ⟨fun _ => 0, [⟨0, 1, true⟩, ⟨0, 1, false⟩, ⟨0, 1, false⟩]⟩
              (.copy 1)).1 (.move 1)).2
          = .constructed 4
        ∧ (step (step ⟨fun _ => 0, [⟨0, 1, true⟩, ⟨0, 1, false⟩, ⟨0, 1, false⟩]⟩
              (.copy 1)).1 (.move 1)).1.objs[1]?
          = some ⟨0, 1, true⟩
        ∧ (step (step ⟨fun _ => 0, [⟨0, 1, true⟩, ⟨0, 1, false⟩, ⟨0, 1, false⟩]⟩
              (.copy 1)).1 (.move 1)).1.objs[3]?
          = some ⟨0, 1, false⟩
        ∧ (step (step (step ⟨fun _ => 0, [⟨0, 1, true⟩, ⟨0, 1, false⟩, ⟨0, 1, false⟩]⟩
              (.copy 1)).1 (.move 1)).1 (.call 3 3 7)).2
          = .returned true) :=
  ⟨rfl, flag_is_private ⟨fun _ => 0, [⟨0, 1, true⟩, ⟨0, 1, false⟩, ⟨0, 1, false⟩]⟩ 1
    ⟨0, 1, false⟩ 3 7 rfl rfl⟩

/-! The call operator and the failing move constructor leave the state alone. -/

/-- C17: a comparison through any object, or through no object at all, whether
it returns or throws, leaves the whole state as it was: the memory (so both
counters) and every object with its flag; so does any sequence of comparisons,
and no comparison counts as a copy or as a move. -/
theorem call_changes_nothing (s : State) (i : Nat) (a b : Int)
    (calls : List (Nat × Int × Int)) :
    (step s (.call i a b)).1 = s
      ∧ (step s (.call i a b)).1.mem = s.mem
      ∧ (step s (.call i a b)).1.objs = s.objs
      ∧ run s (calls.map (fun p => Op.call p.1 p.2.1 p.2.2)) = s
      ∧ succeeded Op.is_copy s (calls.map (fun p => Op.call p.1 p.2.1 p.2.2)) = 0
      ∧ succeeded Op.is_move s (calls.map (fun p => Op.call p.1 p.2.1 p.2.2)) = 0 := by
  have h1 : ∀ (j : Nat) (x y : Int), (step s (.call j x y)).1 = s := by
    intro j x y
    cases hj : s.objs[j]? with
    | none => rw [(step_no_object s j x y hj).2.2]
    | some o => rw [step_call_some s j o x y hj]
  refine ⟨h1 i a b, by rw [h1 i a b], by rw [h1 i a b], ?_, ?_, ?_⟩
  · induction calls with
    | nil => rfl
    | cons p rest ih => simpa [run, h1 p.1 p.2.1 p.2.2] using ih
  · induction calls with
    | nil => rfl
    | cons p rest ih => simpa [succeeded, Op.is_copy, h1 p.1 p.2.1 p.2.2] using ih
  · induction calls with
    | nil => rfl
    | cons p rest ih => simpa [succeeded, Op.is_move, h1 p.1 p.2.1 p.2.2] using ih

/-- C18: the move constructor from an already consumed `x`, the counters holding
`(c, m)`, throws the usage violation, leaves the memory as it was (the counters
still hold `(c, m)`), leaves `x` consumed, and adds no object to the state. -/
theorem failed_move_is_atomic (s : State) (i : Nat) (x : compare_t) (c m : Int)
    (hi : s.objs[i]? = some x) (hx : x.has_moved = true)
    (hc : s.mem x.copies = c) (hm : s.mem x.moves = m) :
    (compare_t.move_ctor s.mem x).result = .error usage_violation
      ∧ (compare_t.move_ctor s.mem x).mem = s.mem
      ∧ (compare_t.move_ctor s.mem x).mem x.copies = c
      ∧ (compare_t.move_ctor s.mem x).mem x.moves = m
      ∧ (compare_t.move_ctor s.mem x).other = x
      ∧ (compare_t.move_ctor s.mem x).other.has_moved = true
      ∧ (step s (.move i)).2 = .thrown usage_violation
      ∧ (step s (.move i)).1 = s
      ∧ (step s (.move i)).1.objs.length = s.objs.length := by
  have hxe : (⟨x.copies, x.moves, true⟩ : compare_t) = x := by
    cases x; simp_all
  rw [step_move_consumed s i x hi hx]
  simp [compare_t.move_ctor, hx, hxe, hc, hm, usage_violation]

theorem failed_move_is_atomic_witness :
    ((State.mk (fun _ => 5) [⟨0, 1, true⟩, ⟨0, 1, false⟩]).objs[0]? = some ⟨0, 1, true⟩
      ∧ (compare_t.mk 0 1 true).has_moved = true)
      ∧ ((compare_t.move_ctor (fun _ => 5) ⟨0, 1, true⟩).result = .error usage_violation
        ∧ (compare_t.move_ctor (fun _ => 5) ⟨0, 1, true⟩).mem = (fun _ => 5)
        ∧ (compare_t.move_ctor (fun _ => 5) ⟨0, 1, true⟩).mem 0 = 5
        ∧ (compare_t.move_ctor (fun _ => 5) ⟨0, 1, true⟩).mem 1 = 5
        ∧ (compare_t.move_ctor (fun _ => 5) ⟨0, 1, true⟩).other = ⟨0, 1, true⟩
        ∧ (compare_t.move_ctor (fun _ => 5) ⟨0, 1, true⟩).other.has_moved = true
        ∧ (step ⟨fun _ => 5, [⟨0, 1, true⟩, ⟨0, 1, false⟩]⟩ (.move 0)).2
            = .thrown usage_violation
        ∧ (step ⟨fun _ => 5, [⟨0, 1, true⟩, ⟨0, 1, false⟩]⟩ (.move 0)).1
            = ⟨fun _ => 5, [⟨0, 1, true⟩, ⟨0, 1, false⟩]⟩
        ∧ (step ⟨fun _ => 5, [⟨0, 1, true⟩, ⟨0, 1, false⟩]⟩ (.move 0)).1.objs.length = 2) :=
  ⟨⟨rfl, rfl⟩,
    failed_move_is_atomic ⟨fun _ => 5, [⟨0, 1, true⟩, ⟨0, 1, false⟩]⟩ 0 ⟨0, 1, true⟩ 5 5
      rfl rfl rfl rfl⟩

/-! Sorter programs. -/

/-- Incrementing one `int` while two distinct non-negative `int`s `a` and `b`
leave room for it below `INT_MAX`: neither is lowered and their sum grows by at
most one. -/
theorem update_bound (a b t : IntRef) (hab : a ≠ b) (mem : Memory)
    (ha : 0 ≤ mem a) (hb : 0 ≤ mem b) (hroom : mem a + mem b + 1 ≤ 2147483647) :
    mem a ≤ Function.update mem t (wrap_int (mem t + 1)) a
      ∧ mem b ≤ Function.update mem t (wrap_int (mem t + 1)) b
      ∧ Function.update mem t (wrap_int (mem t + 1)) a
          + Function.update mem t (wrap_int (mem t + 1)) b ≤ mem a + mem b + 1 := by
  by_cases hta : t = a
  · subst hta
    have hw : wrap_int (mem t + 1) = mem t + 1 := wrap_int_of_range _ (by omega) (by omega)
    simp only [Function.update_same, Function.update_noteq (Ne.symm hab), hw]
    omega
  · by_cases htb : t = b
    · subst htb
      have hw : wrap_int (mem t + 1) = mem t + 1 := wrap_int_of_range _ (by omega) (by omega)
      simp only [Function.update_same, Function.update_noteq hab, hw]
      omega
    · simp only [Function.update_noteq (Ne.symm hta), Function.update_noteq (Ne.symm htb)]
      omega

/-- One operation, under the same proviso: the two `int`s are not lowered, and
their sum grows by at most one, and only when the operation is a copy or move
construction that returned. -/
theorem step_bound (a b : IntRef) (hab : a ≠ b) (s : State) (op : Op) (k : Nat)
    (hk : (if (op.is_copy || op.is_move) && (step s op).2.is_constructed then 1 else 0) = k)
    (ha : 0 ≤ s.mem a) (hb : 0 ≤ s.mem b)
    (hroom : s.mem a + s.mem b + (k : Int) ≤ 2147483647) :
    s.mem a ≤ (step s op).1.mem a ∧ s.mem b ≤ (step s op).1.mem b
      ∧ (step s op).1.mem a + (step s op).1.mem b ≤ s.mem a + s.mem b + (k : Int) := by
  have hk0 : (0 : Int) ≤ (k : Int) := Int.ofNat_nonneg k
  cases op with
  | construct c m =>
    simp only [step, compare_t.ctor]
    omega
  | copy i =>
    cases hi : s.objs[i]? with
    | none =>
      rw [(step_no_object s i 0 0 hi).1]
      dsimp only
      omega
    | some o =>
      rw [step_copy_some s i o hi] at hk ⊢
      have hk1 : k = 1 := by simpa [Op.is_copy, Outcome.is_constructed] using hk.symm
      subst hk1
      exact update_bound a b o.copies hab s.mem ha hb (by simpa using hroom)
  | move i =>
    cases hi : s.objs[i]? with
    | none =>
      rw [(step_no_object s i 0 0 hi).2.1]
      dsimp only
      omega
    | some o =>
      cases ho : o.has_moved with
      | true =>
        rw [step_move_consumed s i o hi ho]
        dsimp only
        omega
      | false =>
        rw [step_move_unconsumed s i o hi ho] at hk ⊢
        have hk1 : k = 1 := by simpa [Op.is_move, Outcome.is_constructed] using hk.symm
        subst hk1
        exact update_bound a b o.moves hab s.mem ha hb (by simpa using hroom)
  | call i x y =>
    cases hi : s.objs[i]? with
    | none =>
      rw [(step_no_object s i x y hi).2.2]
      dsimp only
      omega
    | some o =>
      rw [step_call_some s i o x y hi]
      dsimp only
      omega

/-- A whole sorter program, while two distinct non-negative `int`s leave room
below `INT_MAX` for all the copy and move constructions that return in it:
neither is lowered, and their sum grows by at most that number. -/
theorem exec_bound (a b : IntRef) (hab : a ≠ b) (p : Program) (s : State)
    (ha : 0 ≤ s.mem a) (hb : 0 ≤ s.mem b)
    (hroom : s.mem a + s.mem b + (p.constructions s : Int) ≤ 2147483647) :
    s.mem a ≤ (p.exec s).1.mem a ∧ s.mem b ≤ (p.exec s).1.mem b
      ∧ (p.exec s).1.mem a + (p.exec s).1.mem b
          ≤ s.mem a + s.mem b + (p.constructions s : Int) := by
  induction p generalizing s with
  | ret collection =>
    simp only [Program.exec, Program.constructions]
    omega
  | raise e =>
    simp only [Program.exec, Program.constructions]
    omega
  | perform op next ih =>
    rw [Program.constructions] at hroom ⊢
    rw [Program.exec]
    generalize hk : (if (op.is_copy || op.is_move) && (step s op).2.is_constructed
      then 1 else 0) = k at hroom ⊢
    have hrest : (0 : Int) ≤ ((next (step s op).2).constructions (step s op).1 : Int) :=
      Int.ofNat_nonneg _
    push_cast at hroom ⊢
    obtain ⟨h1, h2, h3⟩ := step_bound a b hab s op k hk ha hb (by omega)
    obtain ⟨h4, h5, h6⟩ := ih (step s op).2 (step s op).1 (by omega) (by omega) (by omega)
    omega

/-- The program that copies `n` times does what `n` copy operations in a row do,
and goes on from there. -/
theorem exec_copy_n (n src : Nat) (rest : Program) (s : State) :
    (copy_n n src rest).exec s = rest.exec (run s (List.replicate n (.copy src))) := by
  induction n generalizing s with
  | zero => rfl
  | succ n ih => rw [copy_n, Program.exec, ih, List.replicate_succ, run]

/-- What an operation yields and what it does to the objects depends on the
objects only; two memories that agree at an address still agree there after. -/
theorem step_mem_irrelevant (mem1 mem2 : Memory) (objs : List compare_t) (op : Op) :
    (step ⟨mem1, objs⟩ op).2 = (step ⟨mem2, objs⟩ op).2
      ∧ (step ⟨mem1, objs⟩ op).1.objs = (step ⟨mem2, objs⟩ op).1.objs
      ∧ ∀ a, mem1 a = mem2 a →
          (step ⟨mem1, objs⟩ op).1.mem a = (step ⟨mem2, objs⟩ op).1.mem a := by
  cases op with
  | construct c m => simp [step, compare_t.ctor]
  | copy i =>
    cases hi : objs[i]? with
    | none =>
      rw [(step_no_object ⟨mem1, objs⟩ i 0 0 hi).1, (step_no_object ⟨mem2, objs⟩ i 0 0 hi).1]
      simp
    | some o =>
      rw [step_copy_some ⟨mem1, objs⟩ i o hi, step_copy_some ⟨mem2, objs⟩ i o hi]
      refine ⟨rfl, rfl, ?_⟩
      intro a ha
      by_cases hao : a = o.copies
      · subst hao; simp [ha]
      · simp [Function.update_noteq hao, ha]
  | move i =>
    cases hi : objs[i]? with
    | none =>
      rw [(step_no_object ⟨mem1, objs⟩ i 0 0 hi).2.1,
        (step_no_object ⟨mem2, objs⟩ i 0 0 hi).2.1]
      simp
    | some o =>
      cases ho : o.has_moved with
      | true =>
        rw [step_move_consumed ⟨mem1, objs⟩ i o hi ho,
          step_move_consumed ⟨mem2, objs⟩ i o hi ho]
        simp
      | false =>
        rw [step_move_unconsumed ⟨mem1, objs⟩ i o hi ho,
          step_move_unconsumed ⟨mem2, objs⟩ i o hi ho]
        refine ⟨rfl, rfl, ?_⟩
        intro a ha
        by_cases hao : a = o.moves
        · subst hao; simp [ha]
        · simp [Function.update_noteq hao, ha]
  | call i x y =>
    cases hi : objs[i]? with
    | none =>
      rw [(step_no_object ⟨mem1, objs⟩ i x y hi).2.2,
        (step_no_object ⟨mem2, objs⟩ i x y hi).2.2]
      simp
    | some o =>
      rw [step_call_some ⟨mem1, objs⟩ i o x y hi, step_call_some ⟨mem2, objs⟩ i o x y hi]
      simp

/-- The same for a whole sorter program: how it ends does not depend on the
memory, and memories that agree at an address agree there at the end. -/
theorem exec_mem_irrelevant (p : Program) (s1 s2 : State) (hobjs : s1.objs = s2.objs) :
    (p.exec s1).2 = (p.exec s2).2
      ∧ ∀ a, s1.mem a = s2.mem a → (p.exec s1).1.mem a = (p.exec s2).1.mem a := by
  induction p generalizing s1 s2 with
  | ret collection => exact ⟨rfl, fun a ha => ha⟩
  | raise e => exact ⟨rfl, fun a ha => ha⟩
  | perform op next ih =>
    obtain ⟨mem1, objs1⟩ := s1
    obtain ⟨mem2, objs2⟩ := s2
    have hobjs1 : objs1 = objs2 := hobjs
    subst hobjs1
    obtain ⟨hout, hob, hmem⟩ := step_mem_irrelevant mem1 mem2 objs1 op
    rw [Program.exec, Program.exec, hout]
    obtain ⟨h2, hm2⟩ := ih (step ⟨mem2, objs1⟩ op).2 (step ⟨mem1, objs1⟩ op).1
      (step ⟨mem2, objs1⟩ op).1 hob
    exact ⟨h2, fun a ha => hm2 a (hmem a ha)⟩

/-! The loop of `main`. -/

/-- The state handed to the sorter: `copies` holds `1` (the copy made for the
by-value parameter), `moves` holds `0`, and there are two unconsumed objects. -/
theorem sorter_start_eq (mem : Memory) :
    (sorter_start mem).objs = [⟨copies_addr, moves_addr, false⟩, ⟨copies_addr, moves_addr, false⟩]
      ∧ (sorter_start mem).mem copies_addr = 1
      ∧ (sorter_start mem).mem moves_addr = 0 := by
  have hw : wrap_int 1 = 1 := by decide
  simp [sorter_start, step, compare_t.ctor, compare_t.copy_ctor, copies_addr, moves_addr, hw]

/-- One iteration written out: the report when the sorter returns, the exception
when one leaves it. -/
theorem loop_body_eq (shuffle : List Int → Nat → List Int) (mem : Memory)
    (sort_item : String × Sorter) :
    (loop_body shuffle mem sort_item).2
      = match ((sort_item.2 (collection_to_sort shuffle) 1).exec (sorter_start mem)).2 with
        | .ok _ => .ok (report_of sort_item.1
            (((sort_item.2 (collection_to_sort shuffle) 1).exec (sorter_start mem)).1.mem
              copies_addr)
            (((sort_item.2 (collection_to_sort shuffle) 1).exec (sorter_start mem)).1.mem
              moves_addr))
        | .error e => .error e := by
  simp only [loop_body]
  cases hres : ((sort_item.2 (collection_to_sort shuffle) 1).exec (sorter_start mem)).2 <;> rfl

/-- What one iteration yields does not depend on the memory it starts from. -/
theorem loop_body_mem_irrelevant (shuffle : List Int → Nat → List Int) (mem1 mem2 : Memory)
    (sort_item : String × Sorter) :
    (loop_body shuffle mem1 sort_item).2 = (loop_body shuffle mem2 sort_item).2 := by
  have hobjs : (sorter_start mem1).objs = (sorter_start mem2).objs := by
    rw [(sorter_start_eq mem1).1, (sorter_start_eq mem2).1]
  obtain ⟨hres, hmem⟩ := exec_mem_irrelevant (sort_item.2 (collection_to_sort shuffle) 1)
    (sorter_start mem1) (sorter_start mem2) hobjs
  have hc := hmem copies_addr
    (by rw [(sorter_start_eq mem1).2.1, (sorter_start_eq mem2).2.1])
  have hm := hmem moves_addr
    (by rw [(sorter_start_eq mem1).2.2, (sorter_start_eq mem2).2.2])
  rw [loop_body_eq, loop_body_eq, hres, hc, hm]

/-- A report carries the name of its entry, the two counters at the end of the
sorter, and their `int` sum. -/
theorem loop_body_report (shuffle : List Int → Nat → List Int) (mem : Memory)
    (sort_item : String × Sorter) (r : Report)
    (h : (loop_body shuffle mem sort_item).2 = .ok r) :
    r.name = sort_item.1
      ∧ r.copies
          = ((sort_item.2 (collection_to_sort shuffle) 1).exec (sorter_start mem)).1.mem
              copies_addr
      ∧ r.moves
          = ((sort_item.2 (collection_to_sort shuffle) 1).exec (sorter_start mem)).1.mem
              moves_addr
      ∧ r.total = wrap_int (r.copies + r.moves) := by
  rw [loop_body_eq] at h
  cases hres : ((sort_item.2 (collection_to_sort shuffle) 1).exec (sorter_start mem)).2 with
  | error e => simp [hres] at h
  | ok coll =>
    simp only [hres] at h
    have hr := (Except.ok.inj h).symm
    subst hr
    exact ⟨rfl, rfl, rfl, rfl⟩

/-- The state in which the sorter run alone starts is the one an iteration of
`main` hands over, up to `int` objects other than the two counters. -/
theorem alone_start (mem : Memory) :
    (step ⟨fun _ => 0, [⟨copies_addr, moves_addr, false⟩]⟩ (.copy 0)).1.objs
        = (sorter_start mem).objs
      ∧ (step ⟨fun _ => 0, [⟨copies_addr, moves_addr, false⟩]⟩ (.copy 0)).1.mem copies_addr
        = (sorter_start mem).mem copies_addr
      ∧ (step ⟨fun _ => 0, [⟨copies_addr, moves_addr, false⟩]⟩ (.copy 0)).1.mem moves_addr
        = (sorter_start mem).mem moves_addr := by
  have hw : wrap_int 1 = 1 := by decide
  rw [(sorter_start_eq mem).1, (sorter_start_eq mem).2.1, (sorter_start_eq mem).2.2]
  simp [step, compare_t.copy_ctor, copies_addr, moves_addr, hw]

/-- An iteration of `main`, from any memory, reports what the sorter run alone
leaves in the two counters, or ends with the exception the sorter run alone ends
with. -/
theorem loop_body_alone (shuffle : List Int → Nat → List Int) (mem : Memory)
    (sort_item : String × Sorter) :
    (loop_body shuffle mem sort_item).2
      = match (alone shuffle sort_item.2).2 with
        | .ok _ => .ok (report_of sort_item.1
            ((alone shuffle sort_item.2).1.mem copies_addr)
            ((alone shuffle sort_item.2).1.mem moves_addr))
        | .error e => .error e := by
  obtain ⟨hobjs, hc0, hm0⟩ := alone_start mem
  obtain ⟨hres, hmem⟩ := exec_mem_irrelevant (sort_item.2 (collection_to_sort shuffle) 1)
    (step ⟨fun _ => 0, [⟨copies_addr, moves_addr, false⟩]⟩ (.copy 0)).1 (sorter_start mem) hobjs
  have hc := hmem copies_addr hc0
  have hm := hmem moves_addr hm0
  rw [loop_body_eq]
  simp only [alone]
  rw [hres, hc, hm]

/-- The loop over entries that all return when run alone: the rows written are
those of the entries run alone, one per entry, in order. -/
theorem main_loop_alone (shuffle : List Int → Nat → List Int)
    (registry : List (String × Sorter))
    (h : ∀ p ∈ registry, ∃ collection, (alone shuffle p.2).2 = .ok collection)
    (mem : Memory) (out : List String) :
    main_loop shuffle mem registry out
      = (out ++ registry.map (fun p => report_row (report_of p.1
          ((alone shuffle p.2).1.mem copies_addr) ((alone shuffle p.2).1.mem moves_addr))),
        .ok ()) := by
  induction registry generalizing mem out with
  | nil => simp [main_loop]
  | cons p registry ih =>
    obtain ⟨collection, hp⟩ := h p (List.mem_cons_self _ _)
    have hbody : (loop_body shuffle mem p).2
        = .ok (report_of p.1 ((alone shuffle p.2).1.mem copies_addr)
            ((alone shuffle p.2).1.mem moves_addr)) := by
      rw [loop_body_alone, hp]
    have hpair : loop_body shuffle mem p
        = ((loop_body shuffle mem p).1,
            .ok (report_of p.1 ((alone shuffle p.2).1.mem copies_addr)
              ((alone shuffle p.2).1.mem moves_addr))) := by
      rw [← hbody]
    rw [main_loop, hpair]
    simp only []
    rw [ih (fun q hq => h q (List.mem_cons_of_mem _ hq))]
    simp

/-- The sorter that copies its comparator `n` times: the iteration reports
`1 + n` copies wrapped into the range of `int`, and no move. -/
theorem copying_sorter_report (shuffle : List Int → Nat → List Int) (mem : Memory)
    (name : String) (n : Nat) :
    (loop_body shuffle mem (name, copying_sorter n)).2
      = .ok (report_of name (wrap_int (1 + (n : Int))) 0) := by
  obtain ⟨hobjs, hc0, hm0⟩ := sorter_start_eq mem
  have hb : ∀ x ∈ (sorter_start mem).objs, x.copies = copies_addr ∧ x.moves = moves_addr := by
    intro x hx
    rw [hobjs] at hx
    have hx1 : x = ⟨copies_addr, moves_addr, false⟩ := by simpa using hx
    subst hx1
    exact ⟨rfl, rfl⟩
  have hops : ∀ op ∈ List.replicate n (Op.copy 1), op.is_construct = false := by
    intro op hop
    rw [List.eq_of_mem_replicate hop]
    rfl
  have h1 : (sorter_start mem).objs[1]? = some ⟨copies_addr, moves_addr, false⟩ := by
    rw [hobjs]
    rfl
  obtain ⟨hcount, hcount0⟩ := succeeded_copies n (sorter_start mem) 1 _ h1
  obtain ⟨-, h2, h3⟩ := run_counts copies_addr moves_addr (by decide)
    (List.replicate n (.copy 1)) (sorter_start mem) hb hops
    (by rw [hc0]; decide) (by rw [hm0]; decide)
  rw [hcount, hc0] at h2
  rw [hcount0, hm0] at h3
  have hw0 : wrap_int (0 + ((0 : Nat) : Int)) = 0 := by decide
  rw [hw0] at h3
  have hexec : ((name, copying_sorter n).2 (collection_to_sort shuffle) 1).exec
      (sorter_start mem)
      = (run (sorter_start mem) (List.replicate n (.copy 1)),
          .ok (collection_to_sort shuffle)) := by
    show (copy_n n 1 (Program.ret (collection_to_sort shuffle))).exec (sorter_start mem) = _
    rw [exec_copy_n]
    rfl
  rw [loop_body_eq, hexec]
  dsimp only
  rw [h2, h3]

/-- The sorter that moves its comparator and copies the result `n` times: the
iteration reports `1 + n` copies wrapped into the range of `int`, and one move. -/
theorem moving_copying_sorter_report (shuffle : List Int → Nat → List Int) (mem : Memory)
    (name : String) (n : Nat) :
    (loop_body shuffle mem (name, moving_copying_sorter n)).2
      = .ok (report_of name (wrap_int (1 + (n : Int))) 1) := by
  obtain ⟨hobjs, hc0, hm0⟩ := sorter_start_eq mem
  have hb : ∀ x ∈ (sorter_start mem).objs, x.copies = copies_addr ∧ x.moves = moves_addr := by
    intro x hx
    rw [hobjs] at hx
    have hx1 : x = ⟨copies_addr, moves_addr, false⟩ := by simpa using hx
    subst hx1
    exact ⟨rfl, rfl⟩
  have h1 : (sorter_start mem).objs[1]? = some ⟨copies_addr, moves_addr, false⟩ := by
    rw [hobjs]
    rfl
  have hlen : (sorter_start mem).objs.length = 2 := by rw [hobjs]; rfl
  have hmove := step_move_unconsumed (sorter_start mem) 1 _ h1 rfl
  have hout : (step (sorter_start mem) (.move 1)).2 = .constructed 2 := by
    rw [hmove, hlen]
  obtain ⟨hb1, hc1, hm1⟩ := step_counts copies_addr moves_addr (by decide) (sorter_start mem)
    (.move 1) hb rfl
  have hw : wrap_int (0 + 1) = 1 := by decide
  rw [hout] at hc1 hm1
  simp only [Op.is_copy, Op.is_move, Outcome.is_constructed, Bool.false_and, Bool.true_and,
    if_true, if_false, Bool.false_eq_true, hc0, hm0, hw] at hc1 hm1
  have h2 : (step (sorter_start mem) (.move 1)).1.objs[2]?
      = some ⟨copies_addr, moves_addr, false⟩ := by
    rw [hmove, hobjs]
    rfl
  have hops : ∀ op ∈ List.replicate n (Op.copy 2), op.is_construct = false := by
    intro op hop
    rw [List.eq_of_mem_replicate hop]
    rfl
  obtain ⟨hcount, hcount0⟩ := succeeded_copies n (step (sorter_start mem) (.move 1)).1 2 _ h2
  obtain ⟨-, h3, h4⟩ := run_counts copies_addr moves_addr (by decide)
    (List.replicate n (.copy 2)) (step (sorter_start mem) (.move 1)).1 hb1 hops
    (by rw [hc1]; decide) (by rw [hm1]; decide)
  rw [hcount, hc1] at h3
  rw [hcount0, hm1] at h4
  have hw1 : wrap_int (1 + ((0 : Nat) : Int)) = 1 := by decide
  rw [hw1] at h4
  have hexec : ((name, moving_copying_sorter n).2 (collection_to_sort shuffle) 1).exec
      (sorter_start mem)
      = (run (step (sorter_start mem) (.move 1)).1 (List.replicate n (.copy 2)),
          .ok (collection_to_sort shuffle)) := by
    show (Program.perform (.move 1) _).exec (sorter_start mem) = _
    rw [Program.exec, hout]
    show (copy_n n 2 (Program.ret (collection_to_sort shuffle))).exec _ = _
    rw [exec_copy_n]
    rfl
  rw [loop_body_eq, hexec]
  dsimp only
  rw [h3, h4]

/-- The loop over entries whose runs all return: one row per entry is written,
in order, and the loop goes on with what follows. -/
theorem main_loop_append (shuffle : List Int → Nat → List Int)
    (pre rest : List (String × Sorter))
    (hpre : ∀ p ∈ pre, ∃ r, run_alone shuffle p = .ok r) (mem : Memory) (out : List String) :
    ∃ results mem1,
      main_loop shuffle mem (pre ++ rest) out
          = main_loop shuffle mem1 rest (out ++ results.map report_row)
        ∧ List.Forall₂ (fun p r => run_alone shuffle p = .ok r ∧ r.name = p.1) pre results := by
  induction pre generalizing mem out with
  | nil => exact ⟨[], mem, by simp, List.Forall₂.nil⟩
  | cons p pre ih =>
    obtain ⟨r, hr⟩ := hpre p (List.mem_cons_self _ _)
    have hr1 : (loop_body shuffle mem p).2 = .ok r := by
      rw [loop_body_mem_irrelevant shuffle mem (fun _ => 0) p]
      exact hr
    obtain ⟨results, mem1, hloop, hall⟩ :=
      ih (fun q hq => hpre q (List.mem_cons_of_mem _ hq)) (loop_body shuffle mem p).1
        (out ++ [report_row r])
    refine ⟨r :: results, mem1, ?_, List.Forall₂.cons ⟨hr, ?_⟩ hall⟩
    · have hpair : loop_body shuffle mem p = ((loop_body shuffle mem p).1, .ok r) := by
        rw [← hr1]
      rw [List.cons_append, main_loop, hpair]
      simpa using hloop
    · exact (loop_body_report shuffle mem p r hr1).1

/-- C11, at a sorter that copies its comparator `2147483647` times: the
iteration reports, and the `copies` it reports is `-2147483648`, a negative
count. -/
theorem report_after_many_copies :
    (loop_body (fun l _ => l.reverse) (fun _ => 0)
        ("copying", copying_sorter 2147483647)).2
        = .ok ⟨"copying", -2147483648, 0, -2147483648⟩
      ∧ ¬ (0 ≤ (Report.mk "copying" (-2147483648) 0 (-2147483648)).copies) := by
  refine ⟨?_, by decide⟩
  rw [copying_sorter_report]
  exact congrArg Except.ok (by decide)

/-- C11, for a sorter in whose run fewer than `2147483647` copy and move
constructions return: whenever the iteration of `main` reports, from any
memory, the total reported is the sum of the two counts reported, and neither
count is negative; the counts are the two counters the iteration set to `0`
before constructing the comparator. -/
theorem report_counts (shuffle : List Int → Nat → List Int) (mem : Memory)
    (sort_item : String × Sorter) (r : Report)
    (h : (loop_body shuffle mem sort_item).2 = .ok r)
    (hfew : (sort_item.2 (collection_to_sort shuffle) 1).constructions (sorter_start mem)
      < 2147483647) :
    r.total = r.copies + r.moves ∧ 0 ≤ r.copies ∧ 0 ≤ r.moves := by
  obtain ⟨-, hc, hm, ht⟩ := loop_body_report shuffle mem sort_item r h
  obtain ⟨-, hc0, hm0⟩ := sorter_start_eq mem
  have hfew1 : ((sort_item.2 (collection_to_sort shuffle) 1).constructions (sorter_start mem)
      : Int) < 2147483647 := by exact_mod_cast hfew
  obtain ⟨h1, h2, h3⟩ := exec_bound copies_addr moves_addr (by decide)
    (sort_item.2 (collection_to_sort shuffle) 1) (sorter_start mem)
    (by omega) (by omega) (by omega)
  rw [hc0, hm0, ← hc, ← hm] at h3
  rw [hc0, ← hc] at h1
  rw [hm0, ← hm] at h2
  refine ⟨?_, by omega, h2⟩
  rw [ht]
  exact wrap_int_of_range _ (by omega) (by omega)

theorem report_counts_witness :
    ((loop_body (fun l _ => l.reverse) (fun _ => 7) ("sample", sample_sorter)).2
        = .ok ⟨"sample", 1, 1, 2⟩
      ∧ (sample_sorter (collection_to_sort (fun l _ => l.reverse)) 1).constructions
          (sorter_start (fun _ => 7)) < 2147483647)
      ∧ ((Report.mk "sample" 1 1 2).total
            = (Report.mk "sample" 1 1 2).copies + (Report.mk "sample" 1 1 2).moves
        ∧ 0 ≤ (Report.mk "sample" 1 1 2).copies ∧ 0 ≤ (Report.mk "sample" 1 1 2).moves) :=
  ⟨⟨rfl, by decide⟩, report_counts (fun l _ => l.reverse) (fun _ => 7) ("sample", sample_sorter)
    ⟨"sample", 1, 1, 2⟩ rfl (by decide)⟩

/-- C13: two runs of the per-algorithm procedure for the same sorter, each
started from whatever memory the program is in at that time, yield the same
outcome: the same report, with the same `copies` and `moves`, or the same
exception. -/
theorem runs_are_deterministic (shuffle : List Int → Nat → List Int) (mem1 mem2 : Memory)
    (sort_item : String × Sorter) :
    (loop_body shuffle mem1 sort_item).2 = (loop_body shuffle mem2 sort_item).2
      ∧ (loop_body shuffle mem1 sort_item).2 = run_alone shuffle sort_item
      ∧ (loop_body shuffle mem1 sort_item).1 copies_addr
          = (loop_body shuffle mem2 sort_item).1 copies_addr
      ∧ (loop_body shuffle mem1 sort_item).1 moves_addr
          = (loop_body shuffle mem2 sort_item).1 moves_addr := by
  refine ⟨loop_body_mem_irrelevant shuffle mem1 mem2 sort_item,
    loop_body_mem_irrelevant shuffle mem1 (fun _ => 0) sort_item, ?_, ?_⟩
  all_goals
    have hobjs : (sorter_start mem1).objs = (sorter_start mem2).objs := by
      rw [(sorter_start_eq mem1).1, (sorter_start_eq mem2).1]
    obtain ⟨hres, hmem⟩ := exec_mem_irrelevant (sort_item.2 (collection_to_sort shuffle) 1)
      (sorter_start mem1) (sorter_start mem2) hobjs
    have hc := hmem copies_addr
      (by rw [(sorter_start_eq mem1).2.1, (sorter_start_eq mem2).2.1])
    have hm := hmem moves_addr
      (by rw [(sorter_start_eq mem1).2.2, (sorter_start_eq mem2).2.2])
    simp only [loop_body]
    cases h1 : ((sort_item.2 (collection_to_sort shuffle) 1).exec (sorter_start mem1)).2 <;>
      cases h2 : ((sort_item.2 (collection_to_sort shuffle) 1).exec (sorter_start mem2)).2 <;>
      simp_all

/-- C12: when the run of a registry entry lets an exception out, the entries
before it having reported, `main` has written the rows of those earlier entries
and nothing else: no row for the failing entry, none for the entries after it,
whatever they are; and `main` ends with that exception, not normally. -/
theorem violation_ends_main (shuffle : List Int → Nat → List Int) (mem : Memory)
    (pre post : List (String × Sorter)) (sort_item : String × Sorter) (e : Exception)
    (hpre : ∀ p ∈ pre, ∃ r, run_alone shuffle p = .ok r)
    (hitem : run_alone shuffle sort_item = .error e) :
    ∃ results,
      main_loop shuffle mem (pre ++ sort_item :: post) [] = (results.map report_row, .error e)
        ∧ List.Forall₂ (fun p r => run_alone shuffle p = .ok r ∧ r.name = p.1) pre results
        ∧ (main_loop shuffle mem (pre ++ sort_item :: post) []).1.length = pre.length
        ∧ (main_loop shuffle mem (pre ++ sort_item :: post) []).2 ≠ .ok () := by
  obtain ⟨results, mem1, hloop, hall⟩ :=
    main_loop_append shuffle pre (sort_item :: post) hpre mem []
  have hitem1 : (loop_body shuffle mem1 sort_item).2 = .error e := by
    rw [loop_body_mem_irrelevant shuffle mem1 (fun _ => 0) sort_item]
    exact hitem
  have hpair : loop_body shuffle mem1 sort_item
      = ((loop_body shuffle mem1 sort_item).1, .error e) := by
    rw [← hitem1]
  have hmain : main_loop shuffle mem (pre ++ sort_item :: post) []
      = (results.map report_row, .error e) := by
    rw [hloop, main_loop, hpair]
    simp
  refine ⟨results, hmain, hall, ?_, ?_⟩
  · rw [hmain]
    simpa using (List.Forall₂.length_eq hall).symm
  · rw [hmain]
    simp

theorem violation_ends_main_witness :
    ((∀ p ∈ [("first", sample_sorter)], ∃ r, run_alone (fun l _ => l.reverse) p = .ok r)
      ∧ run_alone (fun l _ => l.reverse) ("second", use_after_move_sorter)
          = .error usage_violation)
      ∧ ∃ results,
        main_loop (fun l _ => l.reverse) (fun _ => 7)
            ([("first", sample_sorter)] ++ ("second", use_after_move_sorter)
              :: [("third", sample_sorter)]) []
          = (results.map report_row, .error usage_violation)
        ∧ List.Forall₂ (fun p r => run_alone (fun l _ => l.reverse) p = .ok r ∧ r.name = p.1)
            [("first", sample_sorter)] results
        ∧ (main_loop (fun l _ => l.reverse) (fun _ => 7)
            ([("first", sample_sorter)] ++ ("second", use_after_move_sorter)
              :: [("third", sample_sorter)]) []).1.length
            = [("first", sample_sorter)].length
        ∧ (main_loop (fun l _ => l.reverse) (fun _ => 7)
            ([("first", sample_sorter)] ++ ("second", use_after_move_sorter)
              :: [("third", sample_sorter)]) []).2 ≠ .ok () :=
  ⟨⟨fun p hp => ⟨⟨"first", 1, 1, 2⟩, by
      have hp1 : p = ("first", sample_sorter) := by simpa using hp
      subst hp1
      rfl⟩, rfl⟩,
    violation_ends_main (fun l _ => l.reverse) (fun _ => 7) [("first", sample_sorter)]
      [("third", sample_sorter)] ("second", use_after_move_sorter) usage_violation
      (fun p hp => ⟨⟨"first", 1, 1, 2⟩, by
        have hp1 : p = ("first", sample_sorter) := by simpa using hp
        subst hp1
        rfl⟩) rfl⟩

/-- C15: when every registry entry, run alone on the freshly built collection
with a fresh comparator over counters `(0, 0)`, returns, `main` writes exactly
one row per entry, in registry order, each with the name of its entry and with
the `copies` and `moves` its sorter leaves in the counters when run alone;
this from whatever memory `main` starts in, so whatever ran before. -/
theorem runs_are_independent (shuffle : List Int → Nat → List Int) (mem : Memory)
    (registry : List (String × Sorter))
    (h : ∀ p ∈ registry, ∃ collection, (alone shuffle p.2).2 = .ok collection) :
    main_loop shuffle mem registry []
        = (registry.map (fun p => report_row (report_of p.1
            ((alone shuffle p.2).1.mem copies_addr) ((alone shuffle p.2).1.mem moves_addr))),
          .ok ())
      ∧ (main_loop shuffle mem registry []).1.length = registry.length := by
  have hmain := main_loop_alone shuffle registry h mem []
  rw [List.nil_append] at hmain
  refine ⟨hmain, ?_⟩
  rw [hmain]
  simp

theorem runs_are_independent_witness :
    (∀ p ∈ [("first", sample_sorter), ("second", copying_sorter 3), ("third", sample_sorter)],
        ∃ collection, (alone (fun l _ => l.reverse) p.2).2 = .ok collection)
      ∧ (main_loop (fun l _ => l.reverse) (fun _ => 7)
            [("first", sample_sorter), ("second", copying_sorter 3), ("third", sample_sorter)] []
          = ([report_row ⟨"first", 1, 1, 2⟩, report_row ⟨"second", 4, 0, 4⟩,
              report_row ⟨"third", 1, 1, 2⟩], .ok ())
        ∧ (main_loop (fun l _ => l.reverse) (fun _ => 7)
            [("first", sample_sorter), ("second", copying_sorter 3), ("third", sample_sorter)]
            []).1.length = 3) :=
  ⟨fun p hp => by
      have hp1 : p = ("first", sample_sorter) ∨ p = ("second", copying_sorter 3)
          ∨ p = ("third", sample_sorter) := by simpa using hp
      rcases hp1 with rfl | rfl | rfl <;> exact ⟨_, rfl⟩,
    runs_are_independent (fun l _ => l.reverse) (fun _ => 7)
      [("first", sample_sorter), ("second", copying_sorter 3), ("third", sample_sorter)]
      (fun p hp => by
        have hp1 : p = ("first", sample_sorter) ∨ p = ("second", copying_sorter 3)
            ∨ p = ("third", sample_sorter) := by simpa using hp
        rcases hp1 with rfl | rfl | rfl <;> exact ⟨_, rfl⟩)⟩

/-! The report row and the collection. -/

/-- What `left_setw` writes is the text left-aligned in a column of that width. -/
theorem left_setw_aligned (width : Nat) (text : String) :
    left_aligned width text (left_setw width text) := by
  refine ⟨width - text.length, rfl, ?_⟩
  rw [left_setw, String.length_append]
  have hlen : (String.mk (List.replicate (width - text.length) ' ')).length
      = width - text.length := by
    show (List.replicate (width - text.length) ' ').length = width - text.length
    simp
  rw [hlen]
  omega

/-- The same with the spaces counted: the text, then `width - text.length`
spaces (none when the text is as long as the width or longer). -/
theorem left_setw_spaces (width : Nat) (text : String) :
    left_setw width text = text ++ String.mk (List.replicate (width - text.length) ' ')
      ∧ (left_setw width text).length = max width text.length := by
  obtain ⟨k, -, hlen⟩ := left_setw_aligned width text
  exact ⟨rfl, hlen⟩

/-- C14, at counts whose sum exceeds `INT_MAX`: for the entry `heap_sort` with a
sorter that moves its comparator once and copies it `2147483646` times, `main`
has `copies = 2147483647` and `moves = 1`, and the row it writes ends in
`-2147483648total`: the number written is not `copies + moves`. -/
theorem report_row_sum_wraps :
    (loop_body (fun l _ => l.reverse) (fun _ => 0)
        ("heap_sort", moving_copying_sorter 2147483646)).2
        = .ok ⟨"heap_sort", 2147483647, 1, -2147483648⟩
      ∧ report_of "heap_sort" 2147483647 1 = ⟨"heap_sort", 2147483647, 1, -2147483648⟩
      ∧ report_row (report_of "heap_sort" 2147483647 1)
          = "heap_sort:               2147483647 copies,\t1          moves,\t-2147483648total\n"
      ∧ (report_of "heap_sort" 2147483647 1).total ≠ 2147483647 + 1 := by
  refine ⟨?_, by decide, by decide, by decide⟩
  rw [moving_copying_sorter_report]
  exact congrArg Except.ok (by decide)

/-- C14, for counts whose sum is an `int`: for every name and every pair of
counts with `copies + moves` within `[-2147483648, 2147483647]`, the row
written is the name followed by `:` left-aligned in width 25, the copies
left-aligned in width 10, a space, `copies,` and a tab, the moves left-aligned
in width 10, a space, `moves,` and a tab, the number `copies + moves`
left-aligned in width 10, `total` and a newline.  The colon is followed by
`24 - name.length` spaces, at least one for every name of `sorts`. -/
theorem report_row_layout (name : String) (copies moves : Int)
    (hlo : -2147483648 ≤ copies + moves) (hhi : copies + moves ≤ 2147483647) :
    (∃ f1 f2 f3 f4,
        report_row (report_of name copies moves)
          = f1 ++ f2 ++ " copies,\t" ++ f3 ++ " moves,\t" ++ f4 ++ "total\n"
        ∧ left_aligned 25 (name ++ ":") f1
        ∧ left_aligned 10 (toString copies) f2
        ∧ left_aligned 10 (toString moves) f3
        ∧ left_aligned 10 (toString (copies + moves)) f4
        ∧ f1 = name ++ ":" ++ String.mk (List.replicate (24 - name.length) ' '))
      ∧ (∀ n ∈ sort_names, 0 < 24 - n.length)
      ∧ report_row (report_of "heap_sort" 3 12)
          = "heap_sort:               3          copies,\t12         moves,\t15        total\n" := by
  have hw : wrap_int (copies + moves) = copies + moves := wrap_int_of_range _ hlo hhi
  refine ⟨⟨left_setw 25 (name ++ ":"), left_setw 10 (toString copies),
    left_setw 10 (toString moves), left_setw 10 (toString (copies + moves)), ?_,
    left_setw_aligned _ _, left_setw_aligned _ _, left_setw_aligned _ _,
    left_setw_aligned _ _, ?_⟩, by decide, by decide⟩
  · rw [report_of, hw]
    rfl
  · rw [(left_setw_spaces 25 (name ++ ":")).1, String.length_append]
    have h1 : (":" : String).length = 1 := rfl
    rw [h1, show 25 - (name.length + 1) = 24 - name.length by omega]

theorem report_row_layout_witness :
    ((-2147483648 : Int) ≤ 3 + 12 ∧ (3 : Int) + 12 ≤ 2147483647)
      ∧ ((∃ f1 f2 f3 f4,
          report_row (report_of "heap_sort" 3 12)
            = f1 ++ f2 ++ " copies,\t" ++ f3 ++ " moves,\t" ++ f4 ++ "total\n"
          ∧ left_aligned 25 ("heap_sort" ++ ":") f1
          ∧ left_aligned 10 (toString (3 : Int)) f2
          ∧ left_aligned 10 (toString (12 : Int)) f3
          ∧ left_aligned 10 (toString ((3 : Int) + 12)) f4
          ∧ f1 = "heap_sort" ++ ":" ++ String.mk (List.replicate (24 - "heap_sort".length) ' '))
        ∧ (∀ n ∈ sort_names, 0 < 24 - n.length)
        ∧ report_row (report_of "heap_sort" 3 12)
            = "heap_sort:               3          copies,\t12         moves,\t15        total\n") :=
  ⟨⟨by decide, by decide⟩, report_row_layout "heap_sort" 3 12 (by decide) (by decide)⟩

/-- The function `std::iota` over a list: the values from `value` on, as many as
the list is long. -/
theorem iota_eq (l : List Int) (value : Int) :
    iota l value = (List.range l.length).map (fun i : Nat => value + (i : Int)) := by
  induction l generalizing value with
  | nil => rfl
  | cons x rest ih =>
    rw [iota, ih, List.length_cons, List.range_succ_eq_map, List.map_cons, List.map_map]
    refine congrArg₂ _ (by simp) (List.map_congr_left ?_)
    intro i _
    show value + 1 + (i : Int) = value + ((i + 1 : Nat) : Int)
    push_cast
    ring

/-- The collection before the shuffle is `0, 1, ..., 999`. -/
theorem iota_collection :
    iota (List.replicate 1000 0) 0 = (List.range 1000).map (fun i : Nat => (i : Int)) := by
  rw [iota_eq, List.length_replicate]
  simp only [zero_add]

/-- C16: with a `std::shuffle` that permutes its range, the collection handed to
the sorter has 1000 elements, is a permutation of `0, ..., 999` (each of these
occurs exactly once, nothing else occurs, no element is repeated), and is the
same for every entry and every iteration: an iteration applies its sorter to
this collection, built from the same list and the seed `1477332479`, and to
nothing else. -/
theorem collection_is_fixed_permutation (shuffle : List Int → Nat → List Int)
    (hperm : ∀ l seed, (shuffle l seed).Perm l) :
    (collection_to_sort shuffle).length = 1000
      ∧ (collection_to_sort shuffle).Perm ((List.range 1000).map (fun i : Nat => (i : Int)))
      ∧ (collection_to_sort shuffle).Nodup
      ∧ (∀ v : Int, 0 ≤ v → v < 1000 → (collection_to_sort shuffle).count v = 1)
      ∧ (∀ v ∈ collection_to_sort shuffle, 0 ≤ v ∧ v < 1000)
      ∧ collection_to_sort shuffle
          = shuffle ((List.range 1000).map (fun i : Nat => (i : Int))) 1477332479
      ∧ (∀ (mem : Memory) (name : String) (sort1 sort2 : Sorter),
          sort1 (collection_to_sort shuffle) = sort2 (collection_to_sort shuffle) →
          loop_body shuffle mem (name, sort1) = loop_body shuffle mem (name, sort2)) := by
  have hp : (collection_to_sort shuffle).Perm ((List.range 1000).map (fun i : Nat => (i : Int))) := by
    rw [collection_to_sort, iota_collection]
    exact hperm _ _
  have hinj : Function.Injective (fun i : Nat => (i : Int)) := fun a b h => by
    simpa using h
  have hnd : (collection_to_sort shuffle).Nodup :=
    hp.nodup_iff.mpr (List.Nodup.map hinj (List.nodup_range 1000))
  have hmem : ∀ v : Int, v ∈ collection_to_sort shuffle ↔ (0 ≤ v ∧ v < 1000) := by
    intro v
    rw [hp.mem_iff, List.mem_map]
    constructor
    · rintro ⟨i, hi, rfl⟩
      have hi1 : i < 1000 := List.mem_range.mp hi
      exact ⟨by positivity, by exact_mod_cast hi1⟩
    · rintro ⟨h0, h1⟩
      refine ⟨v.toNat, List.mem_range.mpr (by omega), ?_⟩
      simp [Int.toNat_of_nonneg h0]
  refine ⟨?_, hp, hnd, ?_, ?_, ?_, ?_⟩
  · rw [hp.length_eq]
    simp
  · intro v h0 h1
    exact List.count_eq_one_of_mem hnd ((hmem v).mpr ⟨h0, h1⟩)
  · intro v hv
    exact (hmem v).mp hv
  · rw [collection_to_sort, iota_collection]
  · intro mem name sort1 sort2 hsort
    simp only [loop_body, hsort]

theorem collection_is_fixed_permutation_witness :
    (∀ (l : List Int) (seed : Nat), (((fun l _ => l.reverse) : List Int → Nat → List Int)
        l seed).Perm l)
      ∧ ((collection_to_sort (fun l _ => l.reverse)).length = 1000
        ∧ (collection_to_sort (fun l _ => l.reverse)).Perm
            ((List.range 1000).map (fun i : Nat => (i : Int)))
        ∧ (collection_to_sort (fun l _ => l.reverse)).Nodup
        ∧ (∀ v : Int, 0 ≤ v → v < 1000 →
            (collection_to_sort (fun l _ => l.reverse)).count v = 1)
        ∧ (∀ v ∈ collection_to_sort (fun l _ => l.reverse), 0 ≤ v ∧ v < 1000)
        ∧ collection_to_sort (fun l _ => l.reverse)
            = ((fun l _ => l.reverse) : List Int → Nat → List Int)
                ((List.range 1000).map (fun i : Nat => (i : Int))) 1477332479
        ∧ (∀ (mem : Memory) (name : String) (sort1 sort2 : Sorter),
            sort1 (collection_to_sort (fun l _ => l.reverse))
              = sort2 (collection_to_sort (fun l _ => l.reverse)) →
            loop_body (fun l _ => l.reverse) mem (name, sort1)
              = loop_body (fun l _ => l.reverse) mem (name, sort2))) :=
  ⟨fun l _ => List.reverse_perm l,
    collection_is_fixed_permutation (fun l _ => l.reverse) (fun l _ => List.reverse_perm l)⟩

end CountCompareCopies
